import Mathlib

/-!
Reliable transfer over UDP (HW3/udphw3.cpp).

A shallow embedding of the four functions of `udphw3.cpp`

* `clientStopWait`, `serverReliable` (stop-and-wait),
* `clientSlidingWindow`, `serverEarlyRetrans` (sliding window),

and the properties of them that the specification states.

The functions talk to a `UdpSocket` and a `Timer`.  What these return is not
decided by the program, so a run is driven by a list of observations, one for
every pass through a polling loop `for(;;) { ... }`: the value returned by
`pollRecvFrom`, the sequence field of the datagram that `recvFrom` stores in
`message[0]`, and the value read from `timer.lap()`.  A run over a finite list
of observations is a prefix of an execution: it ends either with the function
having returned or with the function still inside its polling loop.

C++ `int` is modelled by `Int`.  The loop counters stay between the received
sequence numbers and `max`, so the only value that could leave the range of
`int` is the retransmission counter; the model describes the runs in which it
does not.
-/

namespace Udphw3

/-- Timeout of both senders, `const int TIMEOUT = 1500;`. -/
def TIMEOUT : Int := 1500

/-- What one pass through the polling loop of a sender observes:
`poll` is the result of `sock.pollRecvFrom()`, `seq` is `message[0]` after
`sock.recvFrom` (read only when `poll > 0`), `lap` is the value of
`timer.lap()` (read only when the timeout test is reached). -/
structure Obs where
  poll : Int
  seq : Int
  lap : Int
  deriving DecidableEq

/-- What one pass through the polling loop of a receiver observes: the result
of `sock.pollRecvFrom()` and `message[0]` after `sock.recvFrom`. -/
structure Rx where
  poll : Int
  seq : Int
  deriving DecidableEq

/-- The calls a function makes on the socket and the timer, in program order.
`accept s` is not a call: it records that `serverEarlyRetrans` executed
`recent = i` for the datagram with sequence number `s`. -/
inductive Event where
  | send (seq : Int)
  | start
  | recv (seq : Int)
  | timeout
  | ack (seq : Int)
  | accept (seq : Int)
  deriving DecidableEq

/-- Where control is after a pass: inside the polling loop `for(;;)` with the
local variables `s`, or past the `return` with the local variables `s` (the
value a sender returns is then `s.retransmissions`). -/
inductive Ctl (σ : Type) where
  | loop (s : σ)
  | done (s : σ)
  deriving DecidableEq

/-- The local variables at a control point. -/
def Ctl.locals {σ : Type} : Ctl σ → σ
  | .loop s => s
  | .done s => s

/-- Whether the function has returned. -/
def Ctl.returned {σ : Type} : Ctl σ → Bool
  | .loop _ => false
  | .done _ => true

/-- Runs the polling loop on a list of observations, one pass for each, until
the function returns or the observations are used up.  Gives the control
point reached and the events of the passes. -/
def runLoop {σ ο : Type} (pass : σ → ο → Ctl σ × List Event) :
    Ctl σ → List ο → Ctl σ × List Event
  | .done s, _ => (.done s, [])
  | .loop s, [] => (.loop s, [])
  | .loop s, o :: os =>
    ((runLoop pass (pass s o).1 os).1, (pass s o).2 ++ (runLoop pass (pass s o).1 os).2)

/-- The passes that `runLoop` executes: the local variables at the start of
each pass and the observation made in it. -/
def passesOf {σ ο : Type} (pass : σ → ο → Ctl σ × List Event) :
    Ctl σ → List ο → List (σ × ο)
  | .done _, _ => []
  | .loop _, [] => []
  | .loop s, o :: os => (s, o) :: passesOf pass (pass s o).1 os

/-- The sequence numbers transmitted with `sendTo`, in order. -/
def sends : List Event → List Int
  | [] => []
  | .send s :: es => s :: sends es
  | _ :: es => sends es

/-- The sequence numbers acknowledged with `ackTo`, in order. -/
def acks : List Event → List Int
  | [] => []
  | .ack s :: es => s :: acks es
  | _ :: es => acks es

/-- The sequence numbers for which `recent = i` was executed, in order. -/
def accepts : List Event → List Int
  | [] => []
  | .accept s :: es => s :: accepts es
  | _ :: es => accepts es

/-- The list `0, 1, ..., max - 1` of sequence numbers (empty for `max ≤ 0`). -/
def seqsUpTo (max : Int) : List Int :=
  (List.range max.toNat).map Int.ofNat

/-! ## clientStopWait -/

/-- Local variables of `clientStopWait`. -/
structure StopWait where
  i : Int
  retransmissions : Int
  deriving DecidableEq

/-- The head of `for (int i = 0; i < max; i++)` in `clientStopWait`: tests
`i < max`; if it holds, sets `message[0] = i`, sends, starts the timer and
enters `for(;;)`, otherwise falls through to `return retransmissions`. -/
def stopWaitHead (max : Int) (s : StopWait) : Ctl StopWait × List Event :=
  if s.i < max then (.loop s, [.send s.i, .start]) else (.done s, [])

/-- The `i++` of the `for` statement of `clientStopWait`, followed by its head. -/
def stopWaitNext (max : Int) (s : StopWait) : Ctl StopWait × List Event :=
  stopWaitHead max { s with i := s.i + 1 }

/-- The timeout test of `clientStopWait`:
`if (timer.lap() > TIMEOUT) { retransmissions++; i--; break; }`. -/
def stopWaitTimer (max : Int) (s : StopWait) (o : Obs) : Ctl StopWait × List Event :=
  if o.lap > TIMEOUT then
    let r := stopWaitNext max { s with retransmissions := s.retransmissions + 1, i := s.i - 1 }
    (r.1, .timeout :: r.2)
  else (.loop s, [])

/-- One pass through the body of `for(;;)` in `clientStopWait`. -/
def stopWaitPass (max : Int) (s : StopWait) (o : Obs) : Ctl StopWait × List Event :=
  if o.poll > 0 then
    if o.seq = s.i then
      let r := stopWaitNext max s
      (r.1, .recv o.seq :: r.2)
    else
      let r := stopWaitTimer max s o
      (r.1, .recv o.seq :: r.2)
  else stopWaitTimer max s o

/-- Model of `int clientStopWait(UdpSocket& sock, const int max, int message[])`
run on the observations `obs`. -/
def clientStopWait (max : Int) (obs : List Obs) : Ctl StopWait × List Event :=
  let h := stopWaitHead max { i := 0, retransmissions := 0 }
  let r := runLoop (stopWaitPass max) h.1 obs
  (r.1, h.2 ++ r.2)

/-- The passes of a run of `clientStopWait`. -/
def clientStopWaitPasses (max : Int) (obs : List Obs) : List (StopWait × Obs) :=
  passesOf (stopWaitPass max) (stopWaitHead max { i := 0, retransmissions := 0 }).1 obs

/-! ## serverReliable -/

/-- Local variable of `serverReliable`: the loop counter `i`, the sequence
number the receiver waits for. -/
structure Reliable where
  i : Int
  deriving DecidableEq

/-- The head of `for (int i = 0; i < max; i++)` in `serverReliable`: tests
`i < max` and enters `for(;;)`, or returns. -/
def reliableHead (max : Int) (s : Reliable) : Ctl Reliable × List Event :=
  if s.i < max then (.loop s, []) else (.done s, [])

/-- One pass through the body of `for(;;)` in `serverReliable`.  In the branch
`sequence <= i` the function acknowledges, sets `i = sequence` and breaks, and
the `for` statement then increments `i` and tests it. -/
def reliablePass (max : Int) (s : Reliable) (o : Rx) : Ctl Reliable × List Event :=
  if o.poll > 0 then
    let sequence := o.seq
    if sequence ≤ s.i then
      let r := reliableHead max { i := sequence + 1 }
      (r.1, .recv sequence :: .ack sequence :: r.2)
    else (.loop s, [.recv sequence])
  else (.loop s, [])

/-- Model of `void serverReliable(UdpSocket& sock, const int max, int message[])`
run on the observations `rx`. -/
def serverReliable (max : Int) (rx : List Rx) : Ctl Reliable × List Event :=
  let h := reliableHead max { i := 0 }
  let r := runLoop (reliablePass max) h.1 rx
  (r.1, h.2 ++ r.2)

/-- The passes of a run of `serverReliable`. -/
def serverReliablePasses (max : Int) (rx : List Rx) : List (Reliable × Rx) :=
  passesOf (reliablePass max) (reliableHead max { i := 0 }).1 rx

/-! ## clientSlidingWindow -/

/-- Local variables of `clientSlidingWindow`. -/
structure Sliding where
  i : Int
  retransmissions : Int
  minUnacked : Int
  intransit : Int
  deriving DecidableEq

/-- The `for` loop of `clientSlidingWindow` from its test `i < max` up to the
next entry into `for(;;)` or the return.  An iteration in which the window is
not full after the send goes on to `i++` and the next iteration without
polling.  Every iteration increments `i`, so there are at most `max - i` of
them; the first argument counts them down. -/
def slidingFor (max windowSize : Int) : Nat → Sliding → Ctl Sliding × List Event
  | 0, s => (.done s, [])
  | n + 1, s =>
    if s.i < max then
      let s1 := if s.intransit < windowSize then { s with intransit := s.intransit + 1 } else s
      let ev1 := if s.intransit < windowSize then [Event.send s.i] else []
      if s1.intransit = windowSize then (.loop s1, ev1 ++ [.start])
      else
        let r := slidingFor max windowSize n { s1 with i := s1.i + 1 }
        (r.1, ev1 ++ r.2)
    else (.done s, [])

/-- The head of the `for` loop of `clientSlidingWindow`. -/
def slidingHead (max windowSize : Int) (s : Sliding) : Ctl Sliding × List Event :=
  slidingFor max windowSize (max - s.i).toNat s

/-- The `i++` of the `for` statement of `clientSlidingWindow`, followed by its
head. -/
def slidingNext (max windowSize : Int) (s : Sliding) : Ctl Sliding × List Event :=
  slidingHead max windowSize { s with i := s.i + 1 }

/-- The timeout test of `clientSlidingWindow`:
`if (timer.lap() > TIMEOUT) { retransmissions += windowSize; i = minUnacked;
intransit = 0; break; }`. -/
def slidingTimer (max windowSize : Int) (s : Sliding) (o : Obs) :
    Ctl Sliding × List Event :=
  if o.lap > TIMEOUT then
    let r := slidingNext max windowSize
      { s with retransmissions := s.retransmissions + windowSize, i := s.minUnacked,
               intransit := 0 }
    (r.1, .timeout :: r.2)
  else (.loop s, [])

/-- One pass through the body of `for(;;)` in `clientSlidingWindow`. -/
def slidingPass (max windowSize : Int) (s : Sliding) (o : Obs) :
    Ctl Sliding × List Event :=
  if o.poll > 0 then
    if o.seq = s.minUnacked then
      let r := slidingNext max windowSize
        { s with minUnacked := s.minUnacked + 1, intransit := s.intransit - 1 }
      (r.1, .recv o.seq :: r.2)
    else
      let r := slidingTimer max windowSize s o
      (r.1, .recv o.seq :: r.2)
  else slidingTimer max windowSize s o

/-- The local variables of `clientSlidingWindow` before its `for` loop. -/
def slidingInit : Sliding :=
  { i := 0, retransmissions := 0, minUnacked := 0, intransit := 0 }

/-- Model of `int clientSlidingWindow(UdpSocket& sock, const int max,
int message[], int windowSize)` run on the observations `obs`. -/
def clientSlidingWindow (max windowSize : Int) (obs : List Obs) :
    Ctl Sliding × List Event :=
  let h := slidingHead max windowSize slidingInit
  let r := runLoop (slidingPass max windowSize) h.1 obs
  (r.1, h.2 ++ r.2)

/-- The passes of a run of `clientSlidingWindow`. -/
def clientSlidingWindowPasses (max windowSize : Int) (obs : List Obs) :
    List (Sliding × Obs) :=
  passesOf (slidingPass max windowSize) (slidingHead max windowSize slidingInit).1 obs

/-! ## serverEarlyRetrans -/

/-- Local variables of `serverEarlyRetrans`. -/
structure EarlyRetrans where
  i : Int
  recent : Int
  deriving DecidableEq

/-- The head of `for (int i = 0; i < max; i++)` in `serverEarlyRetrans`. -/
def earlyRetransHead (max : Int) (s : EarlyRetrans) : Ctl EarlyRetrans × List Event :=
  if s.i < max then (.loop s, []) else (.done s, [])

/-- One pass through the body of `for(;;)` in `serverEarlyRetrans`: on a
datagram, `if (sequence == i) { i = sequence; recent = i; }`, then the
acknowledgment of `recent`, then `if (recent == i) break;`. -/
def earlyRetransPass (max : Int) (s : EarlyRetrans) (o : Rx) :
    Ctl EarlyRetrans × List Event :=
  if o.poll > 0 then
    let sequence := o.seq
    let s1 : EarlyRetrans := if sequence = s.i then { i := sequence, recent := sequence } else s
    let ev1 := if sequence = s.i then [Event.accept sequence] else []
    if s1.recent = s1.i then
      let r := earlyRetransHead max { s1 with i := s1.i + 1 }
      (r.1, .recv sequence :: ev1 ++ .ack s1.recent :: r.2)
    else (.loop s1, .recv sequence :: ev1 ++ [.ack s1.recent])
  else (.loop s, [])

/-- Model of `void serverEarlyRetrans(UdpSocket& sock, const int max,
int message[], int windowSize)` run on the observations `rx`; the function
never reads `windowSize`. -/
def serverEarlyRetrans (max _windowSize : Int) (rx : List Rx) :
    Ctl EarlyRetrans × List Event :=
  let h := earlyRetransHead max { i := 0, recent := -1 }
  let r := runLoop (earlyRetransPass max) h.1 rx
  (r.1, h.2 ++ r.2)

/-- The passes of a run of `serverEarlyRetrans`. -/
def serverEarlyRetransPasses (max : Int) (rx : List Rx) : List (EarlyRetrans × Rx) :=
  passesOf (earlyRetransPass max) (earlyRetransHead max { i := 0, recent := -1 }).1 rx

/-! ## Properties of traces -/

/-- The trace `tr` contains a transmission of sequence number `i` and, later,
the receipt of a datagram whose sequence field is `i`. -/
def AckedIn (i : Int) (tr : List Event) : Prop :=
  [Event.send i, Event.recv i].Sublist tr

/-- Every transmission of a sequence number `i + 1` with `0 ≤ i` comes after a
transmission of `i` that was followed by the receipt of `i`. -/
def SendsJustified (tr : List Event) : Prop :=
  ∀ i pre post, 0 ≤ i → tr = pre ++ Event.send (i + 1) :: post → AckedIn i pre

/-- The events of the receive part of a pass: the datagram read, if any. -/
def recvEvents (o : Obs) : List Event :=
  if o.poll > 0 then [Event.recv o.seq] else []

/-- Invariant of `clientStopWait` at the control points of a run: `tr` is the
trace so far. -/
def StopWaitInv (max : Int) (c : Ctl StopWait) (tr : List Event) : Prop :=
  SendsJustified tr ∧
  List.Chain' (fun a b : Int => b = a ∨ b = a + 1) (sends tr) ∧
  (∀ x ∈ (sends tr).head?, x = 0) ∧
  (∀ j, 0 ≤ j → j < c.locals.i → AckedIn j tr) ∧
  0 ≤ c.locals.i ∧
  (c.returned = false →
    c.locals.i < max ∧ Event.send c.locals.i ∈ tr ∧ (sends tr).getLast? = some c.locals.i) ∧
  (c.returned = true → max ≤ c.locals.i)

/-- A pass of `clientStopWait` in which a timeout is observed: the timer reading
exceeds `TIMEOUT` and the pass has not just received the acknowledgment of
the current sequence number `i`. -/
def stopWaitTimedOut (p : StopWait × Obs) : Bool :=
  decide (¬ (p.2.poll > 0 ∧ p.2.seq = p.1.i) ∧ p.2.lap > TIMEOUT)

/-- Invariant of `serverReliable` at the control points of a run: `tr` is the
trace so far and `ps` are the passes so far.  The accepted datagrams are the
acknowledged ones. -/
def ReliableInv (max : Int) (c : Ctl Reliable) (tr : List Event) (ps : List (Reliable × Rx)) :
    Prop :=
  (∀ j, 0 ≤ j → j < c.locals.i → j ∈ acks tr) ∧
  List.Chain' (fun a b : Int => b ≤ a + 1) (acks tr) ∧
  (∀ x ∈ (acks tr).head?, x ≤ 0) ∧
  (∀ x ∈ (acks tr).getLast?, c.locals.i = x + 1) ∧
  (acks tr = [] → c.locals.i = 0) ∧
  c.locals.i ≤ ((acks tr).length : Int) ∧
  (c.returned = false → c.locals.i < max) ∧
  (c.returned = true → max ≤ c.locals.i) ∧
  (0 ≤ max → c.locals.i ≤ max) ∧
  ((∀ p ∈ ps, p.2.poll > 0 → p.1.i ≤ p.2.seq) → 0 ≤ c.locals.i ∧ acks tr = seqsUpTo c.locals.i)

/-- Invariant of `serverEarlyRetrans` at the control points of a run: `tr` is
the trace so far and `ps` are the passes so far. -/
def EarlyRetransInv (max : Int) (c : Ctl EarlyRetrans) (tr : List Event)
    (ps : List (EarlyRetrans × Rx)) : Prop :=
  accepts tr = seqsUpTo c.locals.i ∧
  0 ≤ c.locals.i ∧
  c.locals.recent = c.locals.i - 1 ∧
  (c.returned = false → c.locals.i < max) ∧
  (c.returned = true → max ≤ c.locals.i) ∧
  (0 ≤ max → c.locals.i ≤ max) ∧
  (c.returned = true → 1 ≤ max →
    ∃ pre, tr = pre ++ [Event.recv (max - 1), Event.accept (max - 1), Event.ack (max - 1)]) ∧
  (∀ p ∈ ps, p.1.recent = p.1.i - 1)

/-- A pass of `clientSlidingWindow` in which a window-level timeout occurs: the
timer reading exceeds `TIMEOUT` and the pass has not just received the
acknowledgment of `minUnacked`. -/
def slidingTimedOut (p : Sliding × Obs) : Bool :=
  decide (¬ (p.2.poll > 0 ∧ p.2.seq = p.1.minUnacked) ∧ p.2.lap > TIMEOUT)

/-- What holds at the head of the `for` loop of `clientSlidingWindow` in a run
without timeout, `tr` being the trace so far: the send cursor `i` is the base
plus the number in transit, the window is not full, and the sequence numbers
below `i` have been sent once each, in order. -/
def SlidingHeadOK (max windowSize : Int) (s : Sliding) (tr : List Event) : Prop :=
  s.i ≤ max ∧ s.i = s.minUnacked + s.intransit ∧ 0 ≤ s.minUnacked ∧ 0 ≤ s.intransit ∧
  s.intransit < windowSize ∧ (s.minUnacked = 0 ∨ s.intransit = windowSize - 1) ∧
  s.retransmissions = 0 ∧
  sends tr = seqsUpTo s.i ∧ (∀ j, 0 ≤ j → j < s.minUnacked → Event.recv j ∈ tr)

/-- What holds at a control point of `clientSlidingWindow` in a run without
timeout: inside the polling loop the window is full and starts at the base;
after the return the conditions of the loop head hold with `i = max`. -/
def SlidingCtlOK (max windowSize : Int) (c : Ctl Sliding) (tr : List Event) : Prop :=
  match c with
  | .loop s =>
    s.intransit = windowSize ∧ s.i = s.minUnacked + windowSize - 1 ∧ s.i < max ∧
    0 ≤ s.minUnacked ∧ s.retransmissions = 0 ∧
    sends tr = seqsUpTo (s.i + 1) ∧ (∀ j, 0 ≤ j → j < s.minUnacked → Event.recv j ∈ tr)
  | .done s => s.i = max ∧ SlidingHeadOK max windowSize s tr

/-- A schedule without loss, in rounds.  A round for the sequence number `i`
is a list of passes that neither receive a datagram with sequence number `i`
nor read the timer above `TIMEOUT`, followed by the pass that receives the
acknowledgment carrying `i`.  `answersFrom i rounds` says that the rounds
answer `i`, `i + 1`, ... in turn. -/
def answersFrom : Int → List (List Obs × Obs) → Bool
  | _, [] => true
  | i, r :: rs =>
    r.1.all (fun o => decide (¬ (o.poll > 0 ∧ o.seq = i) ∧ o.lap ≤ TIMEOUT)) &&
    decide (r.2.poll > 0 ∧ r.2.seq = i) &&
    answersFrom (i + 1) rs

/-- The observations of a schedule in rounds, in order. -/
def obsOfRounds : List (List Obs × Obs) → List Obs
  | [] => []
  | r :: rs => r.1 ++ r.2 :: obsOfRounds rs

/-- The events of passes that only read what there is to read. -/
def idleEvents : List Obs → List Event
  | [] => []
  | o :: os => recvEvents o ++ idleEvents os

/-- A pass of `clientStopWait` that suffers a timeout while waiting for the
acknowledgment of the sequence number `j`. -/
def stopWaitTimedOutAt (j : Int) (p : StopWait × Obs) : Bool :=
  stopWaitTimedOut p && decide (p.1.i = j)

/-- Count invariant of `clientStopWait` at the control points of a run: `tr` is
the trace so far and `ps` are the passes so far.  The sequence numbers sent so
far are those up to `i` while the function is polling and those below `i`
after the return; each was sent once, plus once for every timeout suffered
while waiting for it. -/
def StopWaitCountInv (max : Int) (c : Ctl StopWait) (tr : List Event)
    (ps : List (StopWait × Obs)) : Prop :=
  0 ≤ c.locals.i ∧
  (c.returned = false → c.locals.i < max) ∧
  (c.returned = true → max ≤ c.locals.i) ∧
  (0 ≤ max → c.locals.i ≤ max) ∧
  ((sends tr).length : Int)
    = c.locals.i + (if c.returned then 0 else 1) + c.locals.retransmissions ∧
  (∀ j : Int, ((sends tr).count j : Int)
    = (if 0 ≤ j ∧ j < c.locals.i + (if c.returned then 0 else 1) then 1 else 0)
      + (List.countP (stopWaitTimedOutAt j) ps : Nat))

/-- Modelled from the spec: the unreliable channel of sections 2 and 4.3 that
joins the two halves of a sliding-window session (the network and the loss
injection are not code under `src/`).  A session consists of the control
points of `clientSlidingWindow` and `serverEarlyRetrans`, the datagrams and
the acknowledgments that are in flight, oldest first, and the traces of the
two functions. -/
structure Session where
  client : Ctl Sliding
  server : Ctl EarlyRetrans
  toServer : List Int
  toClient : List Int
  clientTrace : List Event
  serverTrace : List Event

/-- Modelled from the spec: what can happen next in a session.  The sender
makes a pass of its polling loop with the timer reading `lap`, reading the
oldest acknowledgment in flight if there is one; the receiver makes a pass,
reading the oldest datagram in flight if there is one; or the channel loses
the oldest datagram or the oldest acknowledgment in flight. -/
inductive Action where
  | senderPass (lap : Int)
  | receiverPass
  | loseDatagram
  | loseAck
  deriving DecidableEq

/-- The session when both functions have been called: the sender has run the
head of its `for` loop and its first datagrams are in flight. -/
def sessionInit (max windowSize : Int) : Session :=
  { client := (slidingHead max windowSize slidingInit).1
    server := (earlyRetransHead max { i := 0, recent := -1 }).1
    toServer := sends (slidingHead max windowSize slidingInit).2
    toClient := []
    clientTrace := (slidingHead max windowSize slidingInit).2
    serverTrace := (earlyRetransHead max { i := 0, recent := -1 }).2 }

/-- What a pass of the sender observes in a session. -/
def senderObs (toClient : List Int) (lap : Int) : Obs :=
  match toClient with
  | [] => { poll := 0, seq := 0, lap := lap }
  | a :: _ => { poll := 1, seq := a, lap := lap }

/-- What a pass of the receiver observes in a session. -/
def receiverObs (toServer : List Int) : Rx :=
  match toServer with
  | [] => { poll := 0, seq := 0 }
  | d :: _ => { poll := 1, seq := d }

/-- One action of a session.  A pass of a function is the pass of its model on
the observation the channel offers; what the pass sends is put in flight. -/
def sessionStep (max windowSize : Int) (S : Session) : Action → Session
  | .senderPass lap =>
    match S.client with
    | .done _ => S
    | .loop s =>
      { S with
        client := (slidingPass max windowSize s (senderObs S.toClient lap)).1
        toClient := S.toClient.tail
        toServer := S.toServer ++ sends (slidingPass max windowSize s (senderObs S.toClient lap)).2
        clientTrace :=
          S.clientTrace ++ (slidingPass max windowSize s (senderObs S.toClient lap)).2 }
  | .receiverPass =>
    match S.server with
    | .done _ => S
    | .loop s =>
      { S with
        server := (earlyRetransPass max s (receiverObs S.toServer)).1
        toServer := S.toServer.tail
        toClient := S.toClient ++ acks (earlyRetransPass max s (receiverObs S.toServer)).2
        serverTrace := S.serverTrace ++ (earlyRetransPass max s (receiverObs S.toServer)).2 }
  | .loseDatagram => { S with toServer := S.toServer.tail }
  | .loseAck => { S with toClient := S.toClient.tail }

/-- The session after the actions `actions`. -/
def runSession (max windowSize : Int) (actions : List Action) : Session :=
  actions.foldl (sessionStep max windowSize) (sessionInit max windowSize)

/-- The state of a session in which the receiver can make no progress: it
still waits for the datagram `0` and has accepted nothing, no datagram `0`
is in flight, and the sender, which has transmitted `0` once, is at a point
from which it does not transmit `0` again. -/
def SessionStuck (S : Session) : Prop :=
  S.server = Ctl.loop { i := 0, recent := -1 } ∧
  accepts S.serverTrace = [] ∧
  (∀ a ∈ acks S.serverTrace, a = -1) ∧
  (0 : Int) ∉ S.toServer ∧
  (sends S.clientTrace).count 0 = 1 ∧
  0 ≤ S.client.locals.i ∧
  0 ≤ S.client.locals.minUnacked

/-- The number of messages that the channel is asked to lose. -/
def lossCount (actions : List Action) : Nat :=
  actions.countP (fun a => decide (a = Action.loseDatagram ∨ a = Action.loseAck))

/-- Whether the timer of the sender runs out only when nothing is in flight:
every pass of the sender in `actions` whose timer reading exceeds `TIMEOUT`
is made when no datagram and no acknowledgment is on its way, `S` being the
session before the actions. -/
def wellTimed (max windowSize : Int) : Session → List Action → Bool
  | _, [] => true
  | S, a :: as =>
    (match a with
      | .senderPass lap => decide (lap > TIMEOUT → S.toServer = [] ∧ S.toClient = [])
      | _ => true) &&
    wellTimed max windowSize (sessionStep max windowSize S a) as

/-! ## General lemmas -/

theorem runLoop_invariant {σ ο : Type} (pass : σ → ο → Ctl σ × List Event)
    (Inv : Ctl σ → List Event → List (σ × ο) → Prop)
    (hstep : ∀ s o tr ps, Inv (.loop s) tr ps →
      Inv (pass s o).1 (tr ++ (pass s o).2) (ps ++ [(s, o)])) :
    ∀ (os : List ο) (c : Ctl σ) (tr : List Event) (ps : List (σ × ο)), Inv c tr ps →
      Inv (runLoop pass c os).1 (tr ++ (runLoop pass c os).2) (ps ++ passesOf pass c os) := by
  intro os
  induction os with
  | nil =>
    intro c tr ps h
    cases c <;> simpa [runLoop, passesOf] using h
  | cons o os ih =>
    intro c tr ps h
    cases c with
    | done s => simpa [runLoop, passesOf] using h
    | loop s =>
      have h1 := ih (pass s o).1 (tr ++ (pass s o).2) (ps ++ [(s, o)]) (hstep s o tr ps h)
      simpa [runLoop, passesOf, List.append_assoc] using h1

theorem sends_append (a b : List Event) : sends (a ++ b) = sends a ++ sends b := by
  induction a with
  | nil => rfl
  | cons e a ih => cases e <;> simp [sends, ih]

theorem acks_append (a b : List Event) : acks (a ++ b) = acks a ++ acks b := by
  induction a with
  | nil => rfl
  | cons e a ih => cases e <;> simp [acks, ih]

theorem accepts_append (a b : List Event) : accepts (a ++ b) = accepts a ++ accepts b := by
  induction a with
  | nil => rfl
  | cons e a ih => cases e <;> simp [accepts, ih]

theorem ackedIn_append {i : Int} {tr : List Event} (ev : List Event) (h : AckedIn i tr) :
    AckedIn i (tr ++ ev) :=
  List.Sublist.trans h (List.sublist_append_left tr ev)

theorem ackedIn_snoc_recv {i : Int} {tr : List Event} (h : Event.send i ∈ tr) :
    AckedIn i (tr ++ [Event.recv i]) := by
  have h1 : [Event.send i].Sublist tr := List.singleton_sublist.mpr h
  exact List.Sublist.append h1 (List.Sublist.refl [Event.recv i])

theorem sendsJustified_snoc {tr : List Event} {e : Event} (h : SendsJustified tr)
    (he : ∀ i, 0 ≤ i → e = Event.send (i + 1) → AckedIn i tr) :
    SendsJustified (tr ++ [e]) := by
  intro i pre post hi heq
  rcases List.eq_nil_or_concat post with hp | ⟨post1, x, hp⟩
  · subst hp
    have h2 : tr ++ [e] = pre ++ [Event.send (i + 1)] := heq
    obtain ⟨h3, h4⟩ := List.append_inj' h2 rfl
    subst h3
    exact he i hi (by simpa using h4)
  · subst hp
    have h2 : tr ++ [e] = (pre ++ Event.send (i + 1) :: post1) ++ [x] := by
      simpa [List.append_assoc] using heq
    obtain ⟨h3, _⟩ := List.append_inj' h2 rfl
    exact h i pre post1 hi h3

/-! ## clientStopWait: lemmas -/

theorem stopWaitPass_eq (max : Int) (s : StopWait) (o : Obs) :
    stopWaitPass max s o =
      if o.poll > 0 ∧ o.seq = s.i then
        ((stopWaitHead max ⟨s.i + 1, s.retransmissions⟩).1,
          Event.recv s.i :: (stopWaitHead max ⟨s.i + 1, s.retransmissions⟩).2)
      else if o.lap > TIMEOUT then
        ((stopWaitHead max ⟨s.i, s.retransmissions + 1⟩).1,
          recvEvents o ++ Event.timeout :: (stopWaitHead max ⟨s.i, s.retransmissions + 1⟩).2)
      else (.loop s, recvEvents o) := by
  unfold stopWaitPass stopWaitTimer stopWaitNext recvEvents
  by_cases hp : o.poll > 0 <;> by_cases hs : o.seq = s.i <;> by_cases ht : o.lap > TIMEOUT <;>
    simp [hp, hs, ht]

theorem sends_recvEvents (o : Obs) : sends (recvEvents o) = [] := by
  unfold recvEvents; split <;> rfl

theorem sendsJustified_recvEvents {tr : List Event} (o : Obs) (h : SendsJustified tr) :
    SendsJustified (tr ++ recvEvents o) := by
  unfold recvEvents
  split
  · exact sendsJustified_snoc h (by intro i _ he; cases he)
  · simpa using h

theorem stopWaitInv_init (max : Int) :
    StopWaitInv max (stopWaitHead max ⟨0, 0⟩).1 (stopWaitHead max ⟨0, 0⟩).2 := by
  unfold stopWaitHead StopWaitInv
  by_cases h : (0 : Int) < max
  · simp only [h, if_true, Ctl.locals, Ctl.returned, sends]
    refine ⟨?_, ?_, ?_, ?_, le_refl _, ?_, ?_⟩
    · have h0 : SendsJustified [] := by
        intro i pre post _ he
        cases pre <;> simp at he
      have h1 : SendsJustified ([] ++ [Event.send 0]) :=
        sendsJustified_snoc h0 (by intro i hi he; simp at he; omega)
      exact sendsJustified_snoc h1 (by intro i _ he; cases he)
    · simp
    · simp
    · intro j h1 h2; omega
    · simp
    · simp
  · simp only [h, if_false, Ctl.locals, Ctl.returned, sends]
    refine ⟨?_, ?_, ?_, ?_, le_refl _, ?_, ?_⟩
    · intro i pre post _ he
      cases pre <;> simp at he
    · simp
    · simp
    · intro j h1 h2; omega
    · simp
    · intro _; omega

theorem stopWaitInv_step (max : Int) (s : StopWait) (o : Obs) (tr : List Event)
    (h : StopWaitInv max (.loop s) tr) :
    StopWaitInv max (stopWaitPass max s o).1 (tr ++ (stopWaitPass max s o).2) := by
  obtain ⟨hj, hc, hh, ha, h0, hl, _⟩ := h
  obtain ⟨hlt, hmem, hlast⟩ := hl rfl
  simp only [Ctl.locals] at ha h0 hlt hmem hlast
  have hne : sends tr ≠ [] := by
    intro h; rw [h] at hlast; cases hlast
  rw [stopWaitPass_eq]
  unfold StopWaitInv
  by_cases hm : o.poll > 0 ∧ o.seq = s.i
  · -- the acknowledgment of `i`
    simp only [hm, and_self, if_true]
    have hack : AckedIn s.i (tr ++ [Event.recv s.i]) := ackedIn_snoc_recv hmem
    have hj1 : SendsJustified (tr ++ [Event.recv s.i]) :=
      sendsJustified_snoc hj (by intro i _ he; cases he)
    have hall : ∀ j, 0 ≤ j → j < s.i + 1 → AckedIn j (tr ++ [Event.recv s.i]) := by
      intro j hj0 hj1
      by_cases hjs : j = s.i
      · subst hjs; exact hack
      · exact ackedIn_append _ (ha j hj0 (by omega))
    unfold stopWaitHead
    by_cases hn : s.i + 1 < max
    · simp only [hn, if_true, Ctl.locals, Ctl.returned]
      have e1 : tr ++ [Event.recv s.i, Event.send (s.i + 1), Event.start]
          = ((tr ++ [Event.recv s.i]) ++ [Event.send (s.i + 1)]) ++ [Event.start] := by simp
      rw [e1]
      refine ⟨?_, ?_, ?_, ?_, by omega, ?_, ?_⟩
      · refine sendsJustified_snoc (sendsJustified_snoc hj1 ?_) (by intro i _ he; cases he)
        intro i _ he
        have : i = s.i := by simpa using he.symm
        subst this; exact hack
      · simp only [sends_append, sends, List.append_nil]
        refine List.Chain'.append hc (List.chain'_singleton _) ?_
        intro x hx y hy
        rw [hlast] at hx
        simp at hx hy
        subst hx; subst hy; right; rfl
      · simp only [sends_append, sends, List.append_nil]
        rw [List.head?_append_of_ne_nil _ hne]; exact hh
      · intro j hj0 hj1
        exact ackedIn_append _ (ackedIn_append _ (hall j hj0 hj1))
      · intro _
        refine ⟨trivial, by simp, ?_⟩
        simp [sends_append, sends]
      · intro h; cases h
    · simp only [hn, if_false, Ctl.locals, Ctl.returned]
      refine ⟨hj1, ?_, ?_, hall, by omega, ?_, ?_⟩
      · simpa [sends_append, sends] using hc
      · simpa [sends_append, sends] using hh
      · intro h; cases h
      · intro _; omega
  · simp only [hm, if_false]
    have hjr : SendsJustified (tr ++ recvEvents o) := sendsJustified_recvEvents o hj
    by_cases ht : o.lap > TIMEOUT
    · -- timeout: `i` is sent again
      simp only [ht, if_true]
      unfold stopWaitHead
      simp only [hlt, if_true, Ctl.locals, Ctl.returned]
      have e1 : tr ++ (recvEvents o ++ [Event.timeout, Event.send s.i, Event.start])
          = (((tr ++ recvEvents o) ++ [Event.timeout]) ++ [Event.send s.i]) ++ [Event.start] := by
        simp
      rw [e1]
      refine ⟨?_, ?_, ?_, ?_, h0, ?_, ?_⟩
      · refine sendsJustified_snoc (sendsJustified_snoc (sendsJustified_snoc hjr ?_) ?_)
          (by intro i _ he; cases he)
        · intro i _ he; cases he
        · intro i hi he
          have : s.i = i + 1 := by simpa using he
          exact ackedIn_append _ (ackedIn_append _ (ha i hi (by omega)))
      · simp only [sends_append, sends, sends_recvEvents, List.append_nil]
        refine List.Chain'.append hc (List.chain'_singleton _) ?_
        intro x hx y hy
        rw [hlast] at hx
        simp at hx hy
        subst hx; subst hy; left; rfl
      · simp only [sends_append, sends, sends_recvEvents, List.append_nil]
        rw [List.head?_append_of_ne_nil _ hne]; exact hh
      · intro j hj0 hj1
        exact ackedIn_append _ (ackedIn_append _ (ackedIn_append _ (ackedIn_append _
          (ha j hj0 hj1))))
      · intro _
        refine ⟨trivial, by simp, ?_⟩
        simp [sends_append, sends]
      · intro h; cases h
    · -- nothing happens
      simp only [ht, if_false, Ctl.locals, Ctl.returned]
      refine ⟨hjr, ?_, ?_, ?_, h0, ?_, ?_⟩
      · simpa [sends_append, sends_recvEvents] using hc
      · simpa [sends_append, sends_recvEvents] using hh
      · intro j hj0 hj1; exact ackedIn_append _ (ha j hj0 hj1)
      · intro _
        refine ⟨hlt, List.mem_append_left _ hmem, ?_⟩
        simpa [sends_append, sends_recvEvents] using hlast
      · intro h; cases h

theorem clientStopWait_inv (max : Int) (obs : List Obs) :
    StopWaitInv max (clientStopWait max obs).1 (clientStopWait max obs).2 := by
  have h := runLoop_invariant (stopWaitPass max)
    (fun c tr (_ : List (StopWait × Obs)) => StopWaitInv max c tr)
    (fun s o tr _ h => stopWaitInv_step max s o tr h) obs
    (stopWaitHead max ⟨0, 0⟩).1 (stopWaitHead max ⟨0, 0⟩).2 [] (stopWaitInv_init max)
  exact h

theorem stopWaitHead_locals (max : Int) (s : StopWait) : (stopWaitHead max s).1.locals = s := by
  unfold stopWaitHead; split <;> rfl

theorem stopWaitHead_count_timeout (max : Int) (s : StopWait) :
    (stopWaitHead max s).2.count Event.timeout = 0 := by
  unfold stopWaitHead; split <;> simp [List.count_cons]

theorem recvEvents_count_timeout (o : Obs) : (recvEvents o).count Event.timeout = 0 := by
  unfold recvEvents; split <;> simp [List.count_cons]

theorem stopWaitPass_retransmissions (max : Int) (s : StopWait) (o : Obs) :
    (stopWaitPass max s o).1.locals.retransmissions
      = s.retransmissions + (if stopWaitTimedOut (s, o) then 1 else 0) ∧
    (stopWaitPass max s o).2.count Event.timeout
      = if stopWaitTimedOut (s, o) then 1 else 0 := by
  rw [stopWaitPass_eq]
  unfold stopWaitTimedOut
  by_cases hm : o.poll > 0 ∧ o.seq = s.i
  · simp [hm, stopWaitHead_locals, stopWaitHead_count_timeout]
  · by_cases ht : o.lap > TIMEOUT
    · simp [hm, ht, stopWaitHead_locals, stopWaitHead_count_timeout, recvEvents_count_timeout]
    · simp [hm, ht, recvEvents_count_timeout, Ctl.locals]

/-! ## clientStopWait: theorems -/

/-- C1. `clientStopWait` never moves past a sequence number without its
acknowledgment.  For every `max` and every list of observations: each
transmission of a sequence number `i + 1` (with `0 ≤ i`) is preceded by a
transmission of `i` followed by the receipt of a datagram with sequence field
`i`; when the function has returned, this holds of every `i` below `max`, in
particular of `max - 1`; the transmitted sequence numbers start at `0`, and
each next one is equal to the previous one or exactly one more. -/
theorem clientStopWait_no_skip (max : Int) (obs : List Obs) :
    (∀ i pre post, 0 ≤ i → (clientStopWait max obs).2 = pre ++ Event.send (i + 1) :: post →
      AckedIn i pre) ∧
    ((clientStopWait max obs).1.returned = true →
      ∀ i, 0 ≤ i → i < max → AckedIn i (clientStopWait max obs).2) ∧
    (∀ x ∈ (sends (clientStopWait max obs).2).head?, x = 0) ∧
    List.Chain' (fun a b : Int => b = a ∨ b = a + 1) (sends (clientStopWait max obs).2) := by
  obtain ⟨hj, hc, hh, ha, _, _, hd⟩ := clientStopWait_inv max obs
  refine ⟨hj, ?_, hh, hc⟩
  intro hr i hi0 hi
  exact ha i hi0 (lt_of_lt_of_le hi (hd hr))

/-- C1 at `max = 2` with one timeout while waiting for the acknowledgment of
`1`: the transmission of `1` comes after `0` was sent and acknowledged. -/
theorem clientStopWait_no_skip_witness :
    AckedIn 0 [Event.send 0, Event.start, Event.recv 0] :=
  (clientStopWait_no_skip 2 [⟨1, 0, 0⟩, ⟨0, 0, 1501⟩, ⟨1, 1, 20⟩]).1 0
    [Event.send 0, Event.start, Event.recv 0]
    [Event.start, Event.timeout, Event.send 1, Event.start, Event.recv 1]
    (by decide) (by decide)

/-- C8. The retransmission counter of `clientStopWait` equals the number of
timeouts observed.  At the end of every run (so in particular when the
function returns the counter) it equals the number of passes in which the
timer reading exceeded `TIMEOUT` without the acknowledgment of the current
sequence number having just been received, which is also the number of times
the timeout branch was taken; and a single pass adds `1` to the counter if it
is such a pass and leaves it unchanged otherwise. -/
theorem clientStopWait_counts_timeouts (max : Int) (obs : List Obs) :
    (clientStopWait max obs).1.locals.retransmissions
      = (List.countP stopWaitTimedOut (clientStopWaitPasses max obs) : Nat) ∧
    (clientStopWait max obs).1.locals.retransmissions
      = ((clientStopWait max obs).2.count Event.timeout : Nat) ∧
    (∀ s o, (stopWaitPass max s o).1.locals.retransmissions
      = s.retransmissions + (if stopWaitTimedOut (s, o) then 1 else 0)) := by
  have h := runLoop_invariant (stopWaitPass max)
    (fun c tr ps => c.locals.retransmissions = (List.countP stopWaitTimedOut ps : Nat) ∧
      c.locals.retransmissions = (tr.count Event.timeout : Nat))
    (by
      intro s o tr ps ⟨h1, h2⟩
      obtain ⟨h3, h4⟩ := stopWaitPass_retransmissions max s o
      simp only [Ctl.locals] at h1 h2
      rw [h3, List.countP_append, List.count_append, h4]
      by_cases ht : stopWaitTimedOut (s, o) = true
      · simp [ht, h1, ← h2]
      · simp [ht, h1, ← h2])
    obs (stopWaitHead max ⟨0, 0⟩).1 (stopWaitHead max ⟨0, 0⟩).2 []
    (by simp [stopWaitHead_locals, stopWaitHead_count_timeout])
  exact ⟨by simpa [clientStopWaitPasses] using h.1, h.2,
    fun s o => (stopWaitPass_retransmissions max s o).1⟩

/-! ## serverReliable: lemmas -/

theorem seqsUpTo_succ (i : Int) (h : 0 ≤ i) : seqsUpTo (i + 1) = seqsUpTo i ++ [i] := by
  unfold seqsUpTo
  have h1 : (i + 1).toNat = i.toNat + 1 := by omega
  rw [h1, List.range_succ, List.map_append]
  simp [Int.toNat_of_nonneg h]

theorem seqsUpTo_of_nonpos (i : Int) (h : i ≤ 0) : seqsUpTo i = [] := by
  unfold seqsUpTo
  have h1 : i.toNat = 0 := by omega
  rw [h1]; rfl

theorem reliableHead_snd (max : Int) (s : Reliable) : (reliableHead max s).2 = [] := by
  unfold reliableHead; split <;> rfl

theorem reliableHead_locals (max : Int) (s : Reliable) : (reliableHead max s).1.locals = s := by
  unfold reliableHead; split <;> rfl

theorem reliableHead_returned (max : Int) (s : Reliable) :
    ((reliableHead max s).1.returned = false → s.i < max) ∧
    ((reliableHead max s).1.returned = true → max ≤ s.i) := by
  unfold reliableHead
  split <;> simp [Ctl.returned] <;> omega

theorem reliablePass_eq (max : Int) (s : Reliable) (o : Rx) :
    reliablePass max s o =
      if o.poll > 0 ∧ o.seq ≤ s.i then
        ((reliableHead max ⟨o.seq + 1⟩).1, [Event.recv o.seq, Event.ack o.seq])
      else (.loop s, if o.poll > 0 then [Event.recv o.seq] else []) := by
  unfold reliablePass
  by_cases hp : o.poll > 0 <;> by_cases hs : o.seq ≤ s.i <;>
    simp [hp, hs, reliableHead_snd]

theorem reliableInv_init (max : Int) :
    ReliableInv max (reliableHead max ⟨0⟩).1 (reliableHead max ⟨0⟩).2 [] := by
  have hr := reliableHead_returned max ⟨0⟩
  unfold ReliableInv
  rw [reliableHead_snd, reliableHead_locals]
  simp only [acks]
  refine ⟨?_, ?_, ?_, ?_, ?_, ?_, hr.1, hr.2, ?_, ?_⟩
  · intro j h1 h2; omega
  · simp
  · simp
  · simp
  · simp
  · simp
  · intro h; exact h
  · intro _; exact ⟨le_refl _, (seqsUpTo_of_nonpos 0 (le_refl _)).symm⟩

theorem reliableInv_step (max : Int) (s : Reliable) (o : Rx) (tr : List Event)
    (ps : List (Reliable × Rx)) (h : ReliableInv max (.loop s) tr ps) :
    ReliableInv max (reliablePass max s o).1 (tr ++ (reliablePass max s o).2)
      (ps ++ [(s, o)]) := by
  obtain ⟨hall, hc, hh, hl, he, hlen, hlt, _, hmax, hex⟩ := h
  have hlt := hlt rfl
  simp only [Ctl.locals] at hall hl he hlen hlt hmax hex
  rw [reliablePass_eq]
  unfold ReliableInv
  by_cases hm : o.poll > 0 ∧ o.seq ≤ s.i
  · -- the datagram is accepted
    have hr := reliableHead_returned max ⟨o.seq + 1⟩
    simp only [hm, and_self, if_true, reliableHead_locals, acks_append, acks]
    refine ⟨?_, ?_, ?_, ?_, ?_, ?_, hr.1, hr.2, ?_, ?_⟩
    · intro j hj0 hj1
      by_cases hjs : j = o.seq
      · simp [hjs]
      · exact List.mem_append_left _ (hall j hj0 (by omega))
    · refine List.Chain'.append hc (List.chain'_singleton _) ?_
      intro x hx y hy
      have := hl x hx
      simp at hy
      omega
    · intro x hx
      cases hacks : acks tr with
      | nil =>
        rw [hacks] at hx
        have := he hacks
        simp at hx
        omega
      | cons a l =>
        rw [hacks] at hx
        simp at hx
        exact hh x (by rw [hacks]; simpa using hx)
    · intro x hx
      simp at hx
      rw [← hx]
    · intro h; simp at h
    · simp only [List.length_append, List.length_singleton]
      push_cast
      omega
    · intro _; omega
    · intro hps
      have hps1 : ∀ p ∈ ps, p.2.poll > 0 → p.1.i ≤ p.2.seq :=
        fun p hp => hps p (List.mem_append_left _ hp)
      have hso : s.i ≤ o.seq := hps (s, o) (by simp) hm.1
      obtain ⟨h0, hacks⟩ := hex hps1
      have heq : o.seq = s.i := le_antisymm hm.2 hso
      rw [heq, seqsUpTo_succ s.i h0, hacks]
      exact ⟨by omega, rfl⟩
  · -- the datagram is discarded, or there is none
    simp only [hm, if_false, Ctl.locals, Ctl.returned]
    have hacks : acks (tr ++ if o.poll > 0 then [Event.recv o.seq] else []) = acks tr := by
      rw [acks_append]; split <;> simp [acks]
    rw [hacks]
    refine ⟨hall, hc, hh, hl, he, hlen, fun _ => hlt, ?_, hmax, ?_⟩
    · intro h; cases h
    · intro hps
      exact hex (fun p hp => hps p (List.mem_append_left _ hp))

theorem serverReliable_inv (max : Int) (rx : List Rx) :
    ReliableInv max (serverReliable max rx).1 (serverReliable max rx).2
      (serverReliablePasses max rx) := by
  have h := runLoop_invariant (reliablePass max) (ReliableInv max)
    (reliableInv_step max) rx (reliableHead max ⟨0⟩).1 (reliableHead max ⟨0⟩).2 []
    (reliableInv_init max)
  simpa [serverReliable, serverReliablePasses] using h

/-! ## serverReliable: theorems -/

/-- C2 as stated fails.  With `max = 2` and the datagrams `0, 0, 1` (the
first one delivered twice) `serverReliable` terminates having accepted
`0, 0, 1`, which is not the list `0, 1`. -/
theorem serverReliable_accepts_duplicate :
    (serverReliable 2 [⟨1, 0⟩, ⟨1, 0⟩, ⟨1, 1⟩]).1.returned = true ∧
    acks (serverReliable 2 [⟨1, 0⟩, ⟨1, 0⟩, ⟨1, 1⟩]).2 = [0, 0, 1] ∧
    acks (serverReliable 2 [⟨1, 0⟩, ⟨1, 0⟩, ⟨1, 1⟩]).2 ≠ seqsUpTo 2 := by
  decide

/-- C2, amended.  For every `max ≥ 0` and every terminating run of
`serverReliable`: every sequence number `0, ..., max - 1` is accepted
(acknowledged) at least once; each accepted number is at most one more than
the one accepted before it, and the first is at most `0`; the last accepted
number is `max - 1`; there are at least `max` acceptances; and when no
datagram with a sequence number below the expected one is delivered, the
accepted list is exactly `0, 1, ..., max - 1`. -/
theorem serverReliable_accepts (max : Int) (rx : List Rx) (hmax : 0 ≤ max)
    (hterm : (serverReliable max rx).1.returned = true) :
    (∀ j, 0 ≤ j → j < max → j ∈ acks (serverReliable max rx).2) ∧
    List.Chain' (fun a b : Int => b ≤ a + 1) (acks (serverReliable max rx).2) ∧
    (∀ x ∈ (acks (serverReliable max rx).2).head?, x ≤ 0) ∧
    (1 ≤ max → (acks (serverReliable max rx).2).getLast? = some (max - 1)) ∧
    max ≤ ((acks (serverReliable max rx).2).length : Int) ∧
    ((∀ p ∈ serverReliablePasses max rx, p.2.poll > 0 → p.1.i ≤ p.2.seq) →
      acks (serverReliable max rx).2 = seqsUpTo max) := by
  obtain ⟨hall, hc, hh, hl, he, hlen, _, hd, hle, hex⟩ := serverReliable_inv max rx
  have hi : (serverReliable max rx).1.locals.i = max := le_antisymm (hle hmax) (hd hterm)
  rw [hi] at hall hl he hlen hex
  refine ⟨hall, hc, hh, ?_, hlen, fun h => (hex h).2⟩
  intro h1
  cases hacks : acks (serverReliable max rx).2 with
  | nil => have := he hacks; omega
  | cons a l =>
    rw [hacks] at hl
    cases hlast : (a :: l).getLast? with
    | none => simp at hlast
    | some x =>
      have := hl x hlast
      congr 1
      omega

/-- C2, amended, on a terminating run with `max = 2` in which the datagram
`0` is delivered twice: there are at least two acceptances. -/
theorem serverReliable_accepts_witness :
    (2 : Int) ≤ ((acks (serverReliable 2 [⟨1, 0⟩, ⟨1, 0⟩, ⟨0, 5⟩, ⟨1, 1⟩]).2).length : Int) :=
  (serverReliable_accepts 2 [⟨1, 0⟩, ⟨1, 0⟩, ⟨0, 5⟩, ⟨1, 1⟩] (by decide) (by decide)).2.2.2.2.1

/-- C7 as stated fails.  `serverReliable` reaches the expected value `2` after
the datagrams `0, 1`; re-delivering the datagram `0`, which is below `2`,
then sets the expected value to `1`, which is not at least `2`. -/
theorem reliablePass_moves_backward :
    (serverReliable 3 [⟨1, 0⟩, ⟨1, 1⟩]).1 = Ctl.loop ⟨2⟩ ∧
    (0 : Int) < 2 ∧
    ¬ (2 ≤ (reliablePass 3 ⟨2⟩ ⟨1, 0⟩).1.locals.i) := by
  decide

/-- C7, amended.  Re-delivering to `serverReliable` a datagram whose sequence
number `s` is below the expected value `e` sets the expected value to
`s + 1`, which is never above `e`; it is still at least `e` exactly when
`s = e - 1`, the datagram acknowledged last, and is smaller than `e` for
every older datagram. -/
theorem reliablePass_redelivery (max e s p : Int) (hp : 0 < p) (hs : s < e) :
    (reliablePass max ⟨e⟩ ⟨p, s⟩).1.locals.i = s + 1 ∧
    (reliablePass max ⟨e⟩ ⟨p, s⟩).1.locals.i ≤ e ∧
    (e ≤ (reliablePass max ⟨e⟩ ⟨p, s⟩).1.locals.i ↔ s = e - 1) := by
  have h1 : (reliablePass max ⟨e⟩ ⟨p, s⟩).1.locals.i = s + 1 := by
    rw [reliablePass_eq]
    have hm : p > 0 ∧ s ≤ e := ⟨hp, le_of_lt hs⟩
    simp only [hm, and_self, if_true, reliableHead_locals]
  rw [h1]
  refine ⟨rfl, by omega, ?_⟩
  constructor <;> intro h <;> omega

/-- C7, amended, at expected value `2`: re-delivering the datagram `1` leaves
the expected value at `2`. -/
theorem reliablePass_redelivery_witness :
    (reliablePass 3 ⟨2⟩ ⟨1, 1⟩).1.locals.i = 1 + 1 :=
  (reliablePass_redelivery 3 2 1 1 (by decide) (by decide)).1

/-- C10. One receive step of `serverReliable` (a pass whose poll is positive)
with expected value `e` and incoming sequence number `s`: if `s ≤ e` the step
receives the datagram, sends exactly one acknowledgment, carrying `s`, and
the expected value becomes `s + 1`; if `s > e` it receives the datagram,
sends no acknowledgment and stays in the loop with the expected value `e`. -/
theorem reliablePass_receive (max e s p : Int) (hp : 0 < p) :
    (s ≤ e → (reliablePass max ⟨e⟩ ⟨p, s⟩).2 = [Event.recv s, Event.ack s] ∧
      acks (reliablePass max ⟨e⟩ ⟨p, s⟩).2 = [s] ∧
      (reliablePass max ⟨e⟩ ⟨p, s⟩).1.locals.i = s + 1) ∧
    (e < s → (reliablePass max ⟨e⟩ ⟨p, s⟩).2 = [Event.recv s] ∧
      acks (reliablePass max ⟨e⟩ ⟨p, s⟩).2 = [] ∧
      (reliablePass max ⟨e⟩ ⟨p, s⟩).1 = Ctl.loop ⟨e⟩) := by
  rw [reliablePass_eq]
  constructor
  · intro hs
    have hm : p > 0 ∧ s ≤ e := ⟨hp, hs⟩
    simp [hm, reliableHead_locals, acks]
  · intro hs
    have hm : ¬ (p > 0 ∧ s ≤ e) := by
      intro h; omega
    have hp1 : p > 0 := hp
    rw [if_neg hm]
    simp [hp1, acks]

/-- C10 at expected value `1`: the datagram `0` is acknowledged and the
expected value becomes `1`; the datagram `2` is received without an
acknowledgment. -/
theorem reliablePass_receive_witness :
    (reliablePass 3 ⟨1⟩ ⟨1, 0⟩).2 = [Event.recv 0, Event.ack 0] ∧
    (reliablePass 3 ⟨1⟩ ⟨1, 2⟩).2 = [Event.recv 2] :=
  ⟨((reliablePass_receive 3 1 0 1 (by decide)).1 (by decide)).1,
   ((reliablePass_receive 3 1 2 1 (by decide)).2 (by decide)).1⟩

/-! ## serverEarlyRetrans: lemmas -/

theorem earlyRetransHead_snd (max : Int) (s : EarlyRetrans) : (earlyRetransHead max s).2 = [] := by
  unfold earlyRetransHead; split <;> rfl

theorem earlyRetransHead_locals (max : Int) (s : EarlyRetrans) :
    (earlyRetransHead max s).1.locals = s := by
  unfold earlyRetransHead; split <;> rfl

theorem earlyRetransHead_returned (max : Int) (s : EarlyRetrans) :
    ((earlyRetransHead max s).1.returned = false → s.i < max) ∧
    ((earlyRetransHead max s).1.returned = true → max ≤ s.i) := by
  unfold earlyRetransHead
  split <;> simp [Ctl.returned] <;> omega

/-- A pass of `serverEarlyRetrans` from a state in which `recent` is not the
expected value `i`. -/
theorem earlyRetransPass_eq (max : Int) (s : EarlyRetrans) (o : Rx) (h : s.recent ≠ s.i) :
    earlyRetransPass max s o =
      if o.poll > 0 then
        if o.seq = s.i then
          ((earlyRetransHead max ⟨s.i + 1, s.i⟩).1,
            [Event.recv s.i, Event.accept s.i, Event.ack s.i])
        else (.loop s, [Event.recv o.seq, Event.ack s.recent])
      else (.loop s, []) := by
  unfold earlyRetransPass
  by_cases hp : o.poll > 0 <;> by_cases hs : o.seq = s.i <;>
    simp [hp, hs, h, earlyRetransHead_snd]

theorem earlyRetransInv_init (max : Int) :
    EarlyRetransInv max (earlyRetransHead max ⟨0, -1⟩).1 (earlyRetransHead max ⟨0, -1⟩).2 [] := by
  have hr := earlyRetransHead_returned max ⟨0, -1⟩
  unfold EarlyRetransInv
  rw [earlyRetransHead_snd, earlyRetransHead_locals]
  simp only [accepts]
  refine ⟨(seqsUpTo_of_nonpos 0 (le_refl _)).symm, le_refl _, by decide, hr.1, hr.2,
    fun h => h, ?_, by simp⟩
  intro h1 h2
  have := hr.2 h1
  simp only at this
  omega

theorem earlyRetransInv_step (max : Int) (s : EarlyRetrans) (o : Rx) (tr : List Event)
    (ps : List (EarlyRetrans × Rx)) (h : EarlyRetransInv max (.loop s) tr ps) :
    EarlyRetransInv max (earlyRetransPass max s o).1 (tr ++ (earlyRetransPass max s o).2)
      (ps ++ [(s, o)]) := by
  obtain ⟨hacc, h0, hrec, hlt, _, hmax, _, hps⟩ := h
  have hlt := hlt rfl
  simp only [Ctl.locals] at hacc h0 hrec hlt hmax
  have hne : s.recent ≠ s.i := by omega
  have hps1 : ∀ p ∈ ps ++ [(s, o)], p.1.recent = p.1.i - 1 := by
    intro p hp
    rcases List.mem_append.mp hp with hp | hp
    · exact hps p hp
    · simp at hp; subst hp; exact hrec
  rw [earlyRetransPass_eq max s o hne]
  unfold EarlyRetransInv
  by_cases hp : o.poll > 0
  · by_cases hs : o.seq = s.i
    · have hr := earlyRetransHead_returned max ⟨s.i + 1, s.i⟩
      simp only [hp, hs, if_true, earlyRetransHead_locals, accepts_append, accepts]
      refine ⟨?_, by omega, by omega, hr.1, hr.2, fun _ => by omega, ?_, hps1⟩
      · rw [seqsUpTo_succ s.i h0, hacc]
      · intro h1 _
        have h2 := hr.2 h1
        simp only at h2
        have h3 : s.i = max - 1 := by omega
        rw [h3]
        exact ⟨tr, rfl⟩
    · simp only [hp, hs, if_true, if_false, Ctl.locals, Ctl.returned, accepts_append, accepts,
        List.append_nil]
      exact ⟨hacc, h0, hrec, fun _ => hlt, (by intro h; cases h), hmax, (by intro h; cases h), hps1⟩
  · simp only [hp, if_false, Ctl.locals, Ctl.returned, List.append_nil]
    exact ⟨hacc, h0, hrec, fun _ => hlt, (by intro h; cases h), hmax, (by intro h; cases h), hps1⟩

theorem serverEarlyRetrans_inv (max windowSize : Int) (rx : List Rx) :
    EarlyRetransInv max (serverEarlyRetrans max windowSize rx).1
      (serverEarlyRetrans max windowSize rx).2 (serverEarlyRetransPasses max rx) := by
  have h := runLoop_invariant (earlyRetransPass max) (EarlyRetransInv max)
    (earlyRetransInv_step max) rx (earlyRetransHead max ⟨0, -1⟩).1
    (earlyRetransHead max ⟨0, -1⟩).2 [] (earlyRetransInv_init max)
  simpa [serverEarlyRetrans, serverEarlyRetransPasses] using h

/-! ## serverEarlyRetrans: theorems -/

/-- C3. For every `max ≥ 0` and every terminating run of `serverEarlyRetrans`:
the datagrams accepted as in order (those for which `recent` is updated) are
exactly `0, 1, ..., max - 1`, once each and in increasing order; in every pass
of the run a datagram is accepted if and only if one was received and its
sequence number equals the expected value `i`, and the expected value
advances, by one, exactly in that case; and for `max ≥ 1` the run ends with
the receipt, acceptance and acknowledgment of `max - 1`. -/
theorem serverEarlyRetrans_accepts (max windowSize : Int) (rx : List Rx) (hmax : 0 ≤ max)
    (hterm : (serverEarlyRetrans max windowSize rx).1.returned = true) :
    accepts (serverEarlyRetrans max windowSize rx).2 = seqsUpTo max ∧
    (∀ p ∈ serverEarlyRetransPasses max rx,
      (accepts (earlyRetransPass max p.1 p.2).2 = [p.2.seq] ↔ (p.2.poll > 0 ∧ p.2.seq = p.1.i)) ∧
      (accepts (earlyRetransPass max p.1 p.2).2 = [] ↔ ¬ (p.2.poll > 0 ∧ p.2.seq = p.1.i)) ∧
      (earlyRetransPass max p.1 p.2).1.locals.i
        = if p.2.poll > 0 ∧ p.2.seq = p.1.i then p.1.i + 1 else p.1.i) ∧
    (1 ≤ max → ∃ pre, (serverEarlyRetrans max windowSize rx).2
      = pre ++ [Event.recv (max - 1), Event.accept (max - 1), Event.ack (max - 1)]) := by
  obtain ⟨hacc, _, _, _, hd, hle, hend, hps⟩ := serverEarlyRetrans_inv max windowSize rx
  have hi : (serverEarlyRetrans max windowSize rx).1.locals.i = max :=
    le_antisymm (hle hmax) (hd hterm)
  rw [hi] at hacc
  refine ⟨hacc, ?_, hend hterm⟩
  intro p hp
  have hne : p.1.recent ≠ p.1.i := by have := hps p hp; omega
  rw [earlyRetransPass_eq max p.1 p.2 hne]
  by_cases h1 : p.2.poll > 0
  · by_cases h2 : p.2.seq = p.1.i
    · simp [h1, h2, accepts, earlyRetransHead_locals]
    · simp [h1, h2, accepts, Ctl.locals]
  · simp [h1, accepts, Ctl.locals]

/-- C3 on a terminating run with `max = 2` in which the datagram `1` arrives
early and the datagram `0` arrives twice: the accepted datagrams are `0, 1`. -/
theorem serverEarlyRetrans_accepts_witness :
    accepts (serverEarlyRetrans 2 5 [⟨1, 1⟩, ⟨1, 0⟩, ⟨0, 7⟩, ⟨1, 0⟩, ⟨1, 1⟩]).2 = seqsUpTo 2 :=
  (serverEarlyRetrans_accepts 2 5 [⟨1, 1⟩, ⟨1, 0⟩, ⟨0, 7⟩, ⟨1, 0⟩, ⟨1, 1⟩]
    (by decide) (by decide)).1

/-! ## clientSlidingWindow: lemmas -/

theorem slidingFor_of_le (max windowSize : Int) :
    ∀ (n : Nat) (s : Sliding), (max - s.i).toNat ≤ n →
      slidingFor max windowSize n s = slidingFor max windowSize (max - s.i).toNat s := by
  intro n
  induction n with
  | zero =>
    intro s h
    have h0 : (max - s.i).toNat = 0 := by omega
    rw [h0]
  | succ n ih =>
    intro s h
    by_cases hlt : s.i < max
    · obtain ⟨k, hk⟩ : ∃ k, (max - s.i).toNat = k + 1 := ⟨(max - s.i).toNat - 1, by omega⟩
      rw [hk]
      have e1 : ∀ t : Sliding, t.i = s.i + 1 →
          slidingFor max windowSize n t = slidingFor max windowSize k t := by
        intro t ht
        have hn : (max - t.i).toNat ≤ n := by rw [ht]; omega
        have hk1 : (max - t.i).toNat = k := by rw [ht]; omega
        rw [ih t hn, hk1]
      simp only [slidingFor, hlt, if_true]
      by_cases h1 : s.intransit < windowSize
      · simp only [h1, if_true]
        rw [e1 _ rfl]
      · simp only [h1, if_false]
        rw [e1 _ rfl]
    · have h0 : (max - s.i).toNat = 0 := by omega
      rw [h0]
      simp [slidingFor, hlt]

/-- The head of the `for` loop of `clientSlidingWindow` satisfies the equation
of the loop: the count of iterations in `slidingFor` never runs out. -/
theorem slidingHead_eq (max windowSize : Int) (s : Sliding) :
    slidingHead max windowSize s =
      if s.i < max then
        let s1 := if s.intransit < windowSize then { s with intransit := s.intransit + 1 } else s
        let ev1 := if s.intransit < windowSize then [Event.send s.i] else []
        if s1.intransit = windowSize then (.loop s1, ev1 ++ [.start])
        else
          ((slidingHead max windowSize { s1 with i := s1.i + 1 }).1,
            ev1 ++ (slidingHead max windowSize { s1 with i := s1.i + 1 }).2)
      else (.done s, []) := by
  unfold slidingHead
  by_cases hlt : s.i < max
  · obtain ⟨k, hk⟩ : ∃ k, (max - s.i).toNat = k + 1 := ⟨(max - s.i).toNat - 1, by omega⟩
    have e1 : (max - (s.i + 1)).toNat = k := by omega
    rw [hk]
    simp only [slidingFor, hlt, if_true]
    by_cases h1 : s.intransit < windowSize
    · simp only [h1, if_true]
      rw [e1]
    · simp only [h1, if_false]
      rw [e1]
  · have h0 : (max - s.i).toNat = 0 := by omega
    rw [h0]
    simp [slidingFor, hlt]

theorem slidingFor_facts (max windowSize : Int) :
    ∀ (n : Nat) (s : Sliding),
      (slidingFor max windowSize n s).1.locals.retransmissions = s.retransmissions ∧
      (slidingFor max windowSize n s).1.locals.minUnacked = s.minUnacked ∧
      (slidingFor max windowSize n s).2.count Event.timeout = 0 := by
  intro n
  induction n with
  | zero => intro s; simp [slidingFor, Ctl.locals]
  | succ n ih =>
    intro s
    simp only [slidingFor]
    by_cases hlt : s.i < max
    · by_cases h1 : s.intransit < windowSize
      · by_cases h2 : s.intransit + 1 = windowSize
        · simp [hlt, h1, h2, Ctl.locals, List.count_cons]
        · obtain ⟨h3, h4, h5⟩ := ih { s with intransit := s.intransit + 1, i := s.i + 1 }
          simp only [hlt, h1, h2, if_true, if_false]
          exact ⟨h3, h4, by simp [List.count_cons, h5]⟩
      · by_cases h2 : s.intransit = windowSize
        · simp [hlt, h1, h2, Ctl.locals, List.count_cons]
        · obtain ⟨h3, h4, h5⟩ := ih { s with i := s.i + 1 }
          simp only [hlt, h1, h2, if_true, if_false]
          exact ⟨h3, h4, by simp [h5]⟩
    · simp [hlt, Ctl.locals]

theorem slidingPass_eq (max windowSize : Int) (s : Sliding) (o : Obs) :
    slidingPass max windowSize s o =
      if o.poll > 0 ∧ o.seq = s.minUnacked then
        ((slidingHead max windowSize
            ⟨s.i + 1, s.retransmissions, s.minUnacked + 1, s.intransit - 1⟩).1,
          Event.recv s.minUnacked :: (slidingHead max windowSize
            ⟨s.i + 1, s.retransmissions, s.minUnacked + 1, s.intransit - 1⟩).2)
      else if o.lap > TIMEOUT then
        ((slidingHead max windowSize
            ⟨s.minUnacked + 1, s.retransmissions + windowSize, s.minUnacked, 0⟩).1,
          recvEvents o ++ Event.timeout :: (slidingHead max windowSize
            ⟨s.minUnacked + 1, s.retransmissions + windowSize, s.minUnacked, 0⟩).2)
      else (.loop s, recvEvents o) := by
  unfold slidingPass slidingTimer slidingNext recvEvents
  by_cases hp : o.poll > 0 <;> by_cases hs : o.seq = s.minUnacked <;>
    by_cases ht : o.lap > TIMEOUT <;> simp [hp, hs, ht]

theorem slidingPass_retransmissions (max windowSize : Int) (s : Sliding) (o : Obs) :
    (slidingPass max windowSize s o).1.locals.retransmissions
      = s.retransmissions + windowSize * (if slidingTimedOut (s, o) then 1 else 0) ∧
    (slidingPass max windowSize s o).2.count Event.timeout
      = if slidingTimedOut (s, o) then 1 else 0 := by
  rw [slidingPass_eq]
  unfold slidingTimedOut slidingHead
  by_cases hm : o.poll > 0 ∧ o.seq = s.minUnacked
  · simp [hm, slidingFor_facts]
  · by_cases ht : o.lap > TIMEOUT
    · simp [hm, ht, slidingFor_facts, recvEvents_count_timeout]
    · simp [hm, ht, recvEvents_count_timeout, Ctl.locals]

theorem slidingFor_ok (max windowSize : Int) :
    ∀ (n : Nat) (s : Sliding) (tr : List Event), (max - s.i).toNat ≤ n →
      SlidingHeadOK max windowSize s tr →
      SlidingCtlOK max windowSize (slidingFor max windowSize n s).1
        (tr ++ (slidingFor max windowSize n s).2) := by
  intro n
  induction n with
  | zero =>
    intro s tr hn h
    have hi : s.i = max := by have := h.1; omega
    simpa [slidingFor, SlidingCtlOK] using ⟨hi, h⟩
  | succ n ih =>
    intro s tr hn h
    obtain ⟨h1, h2, h3, h4, h5, h6, hr, h7, h8⟩ := h
    simp only [slidingFor]
    by_cases hlt : s.i < max
    · have hsend : sends (tr ++ [Event.send s.i]) = seqsUpTo (s.i + 1) := by
        rw [sends_append, h7, seqsUpTo_succ s.i (by omega)]; rfl
      by_cases hfull : s.intransit + 1 = windowSize
      · simp only [hlt, h5, hfull, if_true, SlidingCtlOK]
        refine ⟨trivial, by omega, trivial, h3, hr, ?_, ?_⟩
        · have e : tr ++ ([Event.send s.i] ++ [Event.start])
              = (tr ++ [Event.send s.i]) ++ [Event.start] := by simp
          rw [e, sends_append, hsend]; simp [sends]
        · intro j hj0 hj1
          exact List.mem_append_left _ (h8 j hj0 hj1)
      · simp only [hlt, h5, hfull, if_true, if_false]
        have hok : SlidingHeadOK max windowSize
            { s with intransit := s.intransit + 1, i := s.i + 1 } (tr ++ [Event.send s.i]) := by
          refine ⟨by simp only; omega, by simp only; omega, h3, by simp only; omega,
            by simp only; omega, ?_, hr, hsend, ?_⟩
          · left
            rcases h6 with h6 | h6
            · exact h6
            · omega
          · intro j hj0 hj1
            exact List.mem_append_left _ (h8 j hj0 hj1)
        have := ih { s with intransit := s.intransit + 1, i := s.i + 1 }
          (tr ++ [Event.send s.i]) (by simp only; omega) hok
        simpa [List.append_assoc] using this
    · have hi : s.i = max := by omega
      simp only [hlt, if_false, SlidingCtlOK, List.append_nil]
      exact ⟨hi, h1, h2, h3, h4, h5, h6, hr, h7, h8⟩

theorem slidingCtlOK_init (max windowSize : Int) (hmax : 0 ≤ max) (hws : 1 ≤ windowSize) :
    SlidingCtlOK max windowSize (slidingHead max windowSize slidingInit).1
      (slidingHead max windowSize slidingInit).2 := by
  have h := slidingFor_ok max windowSize (max - slidingInit.i).toNat slidingInit []
    (le_refl _)
    ⟨hmax, rfl, le_refl _, le_refl _, by simp only [slidingInit]; omega, Or.inl rfl, rfl,
      (seqsUpTo_of_nonpos 0 (le_refl _)).symm, by intro j h1 h2; simp only [slidingInit] at h2; omega⟩
  simpa [slidingHead] using h

theorem slidingCtlOK_step (max windowSize : Int) (hws : 1 ≤ windowSize) (s : Sliding) (o : Obs)
    (tr : List Event) (h : Event.timeout ∉ tr → SlidingCtlOK max windowSize (.loop s) tr)
    (hno : Event.timeout ∉ tr ++ (slidingPass max windowSize s o).2) :
    SlidingCtlOK max windowSize (slidingPass max windowSize s o).1
      (tr ++ (slidingPass max windowSize s o).2) := by
  have hno1 : Event.timeout ∉ tr := fun hm => hno (List.mem_append_left _ hm)
  obtain ⟨h1, h2, h3, h4, hr, h5, h6⟩ := h hno1
  rw [slidingPass_eq] at hno ⊢
  by_cases hm : o.poll > 0 ∧ o.seq = s.minUnacked
  · simp only [hm, and_self, if_true]
    have hok : SlidingHeadOK max windowSize
        ⟨s.i + 1, s.retransmissions, s.minUnacked + 1, s.intransit - 1⟩
        (tr ++ [Event.recv s.minUnacked]) := by
      refine ⟨by simp only; omega, by simp only; omega, by simp only; omega,
        by simp only; omega, by simp only; omega, Or.inr (by simp only; omega), hr, ?_, ?_⟩
      · rw [sends_append, h5]; simp [sends]
      · intro j hj0 hj1
        by_cases hjs : j = s.minUnacked
        · simp [hjs]
        · exact List.mem_append_left _ (h6 j hj0 (by simp only at hj1; omega))
    have := slidingFor_ok max windowSize _ _ _ (le_refl _) hok
    simpa [slidingHead, List.append_assoc] using this
  · by_cases ht : o.lap > TIMEOUT
    · simp [hm, ht] at hno
    · simp only [hm, ht, if_false, SlidingCtlOK]
      refine ⟨h1, h2, h3, h4, hr, ?_, ?_⟩
      · rw [sends_append, sends_recvEvents, List.append_nil, h5]
      · intro j hj0 hj1
        exact List.mem_append_left _ (h6 j hj0 hj1)

theorem clientSlidingWindow_ok (max windowSize : Int) (hmax : 0 ≤ max) (hws : 1 ≤ windowSize)
    (obs : List Obs) (hno : Event.timeout ∉ (clientSlidingWindow max windowSize obs).2) :
    SlidingCtlOK max windowSize (clientSlidingWindow max windowSize obs).1
      (clientSlidingWindow max windowSize obs).2 := by
  have h := runLoop_invariant (slidingPass max windowSize)
    (fun c tr (_ : List (Sliding × Obs)) => Event.timeout ∉ tr → SlidingCtlOK max windowSize c tr)
    (fun s o tr _ h hno => slidingCtlOK_step max windowSize hws s o tr h hno)
    obs (slidingHead max windowSize slidingInit).1 (slidingHead max windowSize slidingInit).2 []
    (fun _ => slidingCtlOK_init max windowSize hmax hws)
  exact h hno

/-! ## clientSlidingWindow: theorems -/

/-- C9. The retransmission counter of `clientSlidingWindow` equals `windowSize`
times the number of window-level timeouts.  At the end of every run (so in
particular when the function returns the counter) it equals `windowSize`
times the number of passes in which the timer reading exceeded `TIMEOUT`
without the acknowledgment of `minUnacked` having just been received, which
is also the number of times the timeout branch was taken. -/
theorem clientSlidingWindow_counts_timeouts (max windowSize : Int) (obs : List Obs) :
    (clientSlidingWindow max windowSize obs).1.locals.retransmissions
      = windowSize * (List.countP slidingTimedOut (clientSlidingWindowPasses max windowSize obs) : Nat) ∧
    (clientSlidingWindow max windowSize obs).1.locals.retransmissions
      = windowSize * ((clientSlidingWindow max windowSize obs).2.count Event.timeout : Nat) := by
  have h := runLoop_invariant (slidingPass max windowSize)
    (fun c tr ps =>
      c.locals.retransmissions = windowSize * (List.countP slidingTimedOut ps : Nat) ∧
      c.locals.retransmissions = windowSize * (tr.count Event.timeout : Nat))
    (by
      intro s o tr ps ⟨h1, h2⟩
      obtain ⟨h3, h4⟩ := slidingPass_retransmissions max windowSize s o
      simp only [Ctl.locals] at h1 h2
      rw [h3, List.countP_append, List.count_append, h4]
      by_cases ht : slidingTimedOut (s, o) = true
      · simp [ht, h1, ← h2, mul_add]
      · simp [ht, h1, ← h2])
    obs (slidingHead max windowSize slidingInit).1 (slidingHead max windowSize slidingInit).2 []
    (by
      have hf := slidingFor_facts max windowSize (max - slidingInit.i).toNat slidingInit
      unfold slidingHead
      show _ = _ ∧ _ = _
      rw [hf.1, hf.2.2]
      simp [slidingInit])
  exact ⟨by simpa [clientSlidingWindowPasses] using h.1, h.2⟩

/-- C4 at the failing input `max = 4`, `windowSize = 2`, a timeout in the first
pass with no acknowledgment: after transmitting `0, 1` and adding `2` to the
retransmission counter, the function transmits `1` and then `2`, while the
base `minUnacked` is still `0`; the sequence number `0` is not sent again. -/
theorem clientSlidingWindow_timeout_skips_base :
    clientSlidingWindow 4 2 [⟨0, 0, 1501⟩] =
      (Ctl.loop ⟨2, 2, 0, 2⟩,
        [Event.send 0, Event.send 1, Event.start, Event.timeout,
          Event.send 1, Event.send 2, Event.start]) := by
  decide

/-- C5 at the failing input `max = 4`, `windowSize = 2`, no timeout and the
acknowledgments `0, 1, 2, 3` on offer: `clientSlidingWindow` returns after
reading the acknowledgment of `2`; the base is `3`, not `4`, and the
acknowledgment of `3` is never received, so the last message is not
confirmed when the function returns. -/
theorem clientSlidingWindow_returns_unconfirmed :
    (clientSlidingWindow 4 2 [⟨1, 0, 0⟩, ⟨1, 1, 0⟩, ⟨1, 2, 0⟩, ⟨1, 3, 0⟩]).1
      = Ctl.done ⟨4, 0, 3, 1⟩ ∧
    Event.recv 3 ∉ (clientSlidingWindow 4 2 [⟨1, 0, 0⟩, ⟨1, 1, 0⟩, ⟨1, 2, 0⟩, ⟨1, 3, 0⟩]).2 ∧
    (clientSlidingWindow 4 2 [⟨1, 0, 0⟩, ⟨1, 1, 0⟩, ⟨1, 2, 0⟩, ⟨1, 3, 0⟩]).1.locals.minUnacked
      ≠ 4 := by
  decide

/-- How many messages are unconfirmed when `clientSlidingWindow` returns.  For
every `max ≥ 1` and `windowSize ≥ 1`, at the return after a run without
timeout the base `minUnacked` is `max - windowSize + 1` if `windowSize ≤ max`
and `0` otherwise; the acknowledgments of the sequence numbers below the base
were received, and the base equals `max` (all messages confirmed) exactly
when `windowSize = 1`. -/
theorem clientSlidingWindow_base_at_return (max windowSize : Int) (obs : List Obs)
    (hmax : 1 ≤ max) (hws : 1 ≤ windowSize)
    (hterm : (clientSlidingWindow max windowSize obs).1.returned = true)
    (hno : Event.timeout ∉ (clientSlidingWindow max windowSize obs).2) :
    (clientSlidingWindow max windowSize obs).1.locals.minUnacked
      = (if windowSize ≤ max then max - windowSize + 1 else 0) ∧
    (∀ j, 0 ≤ j → j < (clientSlidingWindow max windowSize obs).1.locals.minUnacked →
      Event.recv j ∈ (clientSlidingWindow max windowSize obs).2) ∧
    ((clientSlidingWindow max windowSize obs).1.locals.minUnacked = max ↔ windowSize = 1) := by
  have h := clientSlidingWindow_ok max windowSize (by omega) hws obs hno
  cases hc : (clientSlidingWindow max windowSize obs).1 with
  | loop s => rw [hc] at hterm; cases hterm
  | done s =>
    rw [hc] at h
    obtain ⟨hi, _, h2, h3, h4, h5, h6, _, _, h8⟩ := h
    simp only [Ctl.locals]
    have hbase : s.minUnacked = (if windowSize ≤ max then max - windowSize + 1 else 0) := by
      split <;> omega
    refine ⟨hbase, h8, ?_⟩
    rw [hbase]
    split <;> constructor <;> intro h <;> omega

/-- The base at the return on the run with `max = 4`, `windowSize = 2` and the
acknowledgments `0, 1, 2`: it is `4 - 2 + 1`. -/
theorem clientSlidingWindow_base_at_return_witness :
    (clientSlidingWindow 4 2 [⟨1, 0, 0⟩, ⟨0, 0, 7⟩, ⟨1, 1, 0⟩, ⟨1, 2, 0⟩]).1.locals.minUnacked
      = (if (2 : Int) ≤ 4 then 4 - 2 + 1 else 0) :=
  (clientSlidingWindow_base_at_return 4 2 [⟨1, 0, 0⟩, ⟨0, 0, 7⟩, ⟨1, 1, 0⟩, ⟨1, 2, 0⟩]
    (by decide) (by decide) (by decide) (by decide)).1

/-- C6 at the failing input `max = 2`, `windowSize = 1`, a timeout in the first
pass with no acknowledgment: the function transmits `0`, times out, and then
transmits `1` while the base `minUnacked` is still `0`, although
`1 ≥ minUnacked + windowSize`. -/
theorem clientSlidingWindow_exceeds_window :
    clientSlidingWindow 2 1 [⟨0, 0, 1501⟩] =
      (Ctl.loop ⟨1, 1, 0, 1⟩,
        [Event.send 0, Event.start, Event.timeout, Event.send 1, Event.start]) ∧
    ¬ ((1 : Int) < 0 + 1) := by
  decide

/-! ## Passes of a run -/

theorem passesOf_head (σ ο : Type) (pass : σ → ο → Ctl σ × List Event) (c : Ctl σ)
    (os : List ο) : ∀ y ∈ (passesOf pass c os).head?, c = Ctl.loop y.1 := by
  intro y hy
  cases c with
  | done s => simp [passesOf] at hy
  | loop s =>
    cases os with
    | nil => simp [passesOf] at hy
    | cons o os =>
      simp [passesOf] at hy
      rw [← hy]

/-- Each pass of a run starts in the state in which the pass before it ended. -/
theorem passesOf_chain {σ ο : Type} (pass : σ → ο → Ctl σ × List Event) :
    ∀ (os : List ο) (c : Ctl σ),
      List.Chain' (fun p q : σ × ο => (pass p.1 p.2).1 = Ctl.loop q.1) (passesOf pass c os) := by
  intro os
  induction os with
  | nil => intro c; cases c <;> simp [passesOf]
  | cons o os ih =>
    intro c
    cases c with
    | done s => simp [passesOf]
    | loop s =>
      simp only [passesOf]
      rw [List.chain'_cons']
      exact ⟨fun y hy => passesOf_head σ ο pass (pass s o).1 os y hy, ih _⟩

/-- A property of the local variables that holds when the polling loop is
entered and is kept by every pass that stays in the loop holds at the start
of every pass of a run. -/
theorem passesOf_forall {σ ο : Type} (pass : σ → ο → Ctl σ × List Event) (P : σ → Prop)
    (hstep : ∀ s o s1, P s → (pass s o).1 = Ctl.loop s1 → P s1) :
    ∀ (os : List ο) (c : Ctl σ), (∀ s, c = Ctl.loop s → P s) →
      ∀ p ∈ passesOf pass c os, P p.1 := by
  intro os
  induction os with
  | nil => intro c _ p hp; cases c <;> simp [passesOf] at hp
  | cons o os ih =>
    intro c hc p hp
    cases c with
    | done s => simp [passesOf] at hp
    | loop s =>
      simp only [passesOf, List.mem_cons] at hp
      rcases hp with hp | hp
      · rw [hp]; exact hc s rfl
      · exact ih (pass s o).1 (fun s1 h1 => hstep s o s1 (hc s rfl) h1) p hp

/-! ## clientStopWait: single passes -/

theorem stopWaitHead_loop (max : Int) (s s1 : StopWait)
    (h : (stopWaitHead max s).1 = Ctl.loop s1) : s1 = s ∧ s.i < max := by
  unfold stopWaitHead at h
  by_cases hlt : s.i < max
  · simp only [hlt, if_true] at h
    exact ⟨(Ctl.loop.inj h).symm, hlt⟩
  · simp [hlt] at h

theorem clientStopWaitPasses_lt (max : Int) (obs : List Obs) :
    ∀ p ∈ clientStopWaitPasses max obs, p.1.i < max := by
  refine passesOf_forall (stopWaitPass max) (fun s => s.i < max) ?_ obs _ ?_
  · intro s o s1 hs h
    rw [stopWaitPass_eq] at h
    by_cases hm : o.poll > 0 ∧ o.seq = s.i
    · simp only [hm, and_self, if_true] at h
      obtain ⟨h1, h2⟩ := stopWaitHead_loop max _ s1 h
      rw [h1]; exact h2
    · by_cases ht : o.lap > TIMEOUT
      · simp only [hm, ht, if_true, if_false] at h
        obtain ⟨h1, h2⟩ := stopWaitHead_loop max _ s1 h
        rw [h1]; exact h2
      · simp only [hm, ht, if_false] at h
        rw [← Ctl.loop.inj h]; exact hs
  · intro s h
    exact (stopWaitHead_loop max _ s h).1 ▸ (stopWaitHead_loop max _ s h).2

/-- C11. When the timeout fires in a pass of a run of `clientStopWait` that
waits for the acknowledgment of `i` (the timer reading exceeds `TIMEOUT` and
the acknowledgment of `i` has not just been received), the retransmission
counter increases by exactly `1`, the only datagram transmitted in the pass
carries the same sequence number `i`, the timer is started again, and the
function goes on waiting for `i`; this holds of every `i`, `0` included. -/
theorem clientStopWait_timeout_resends (max : Int) (obs : List Obs) (p : StopWait × Obs)
    (hp : p ∈ clientStopWaitPasses max obs) (ht : stopWaitTimedOut p = true) :
    stopWaitPass max p.1 p.2
      = (Ctl.loop ⟨p.1.i, p.1.retransmissions + 1⟩,
          recvEvents p.2 ++ [Event.timeout, Event.send p.1.i, Event.start]) ∧
    sends (stopWaitPass max p.1 p.2).2 = [p.1.i] := by
  have hlt := clientStopWaitPasses_lt max obs p hp
  unfold stopWaitTimedOut at ht
  simp only [decide_eq_true_eq] at ht
  have hpass : stopWaitPass max p.1 p.2
      = (Ctl.loop ⟨p.1.i, p.1.retransmissions + 1⟩,
          recvEvents p.2 ++ [Event.timeout, Event.send p.1.i, Event.start]) := by
    rw [stopWaitPass_eq, if_neg ht.1, if_pos ht.2]
    unfold stopWaitHead
    simp only [hlt, if_true]
  refine ⟨hpass, ?_⟩
  rw [hpass]
  simp [sends_append, sends_recvEvents, sends]

/-- C11 on the run with `max = 2` in which the acknowledgment of `0` is missed
once: the first pass times out and transmits `0` again; the transmissions of
the run are `0, 0, 1` and the function returns `1`. -/
theorem clientStopWait_timeout_resends_witness :
    stopWaitPass 2 ⟨0, 0⟩ ⟨0, 0, 1501⟩
      = (Ctl.loop ⟨0, 0 + 1⟩,
          recvEvents ⟨0, 0, 1501⟩ ++ [Event.timeout, Event.send 0, Event.start]) ∧
    sends (clientStopWait 2 [⟨0, 0, 1501⟩, ⟨1, 0, 3⟩, ⟨1, 1, 5⟩]).2 = [0, 0, 1] ∧
    (clientStopWait 2 [⟨0, 0, 1501⟩, ⟨1, 0, 3⟩, ⟨1, 1, 5⟩]).1 = Ctl.done ⟨2, 1⟩ :=
  ⟨(clientStopWait_timeout_resends 2 [⟨0, 0, 1501⟩, ⟨1, 0, 3⟩, ⟨1, 1, 5⟩]
      (⟨0, 0⟩, ⟨0, 0, 1501⟩) (by decide) (by decide)).1,
    by decide, by decide⟩

/-- C14. A pass of the wait loop of `clientStopWait` for sequence number `i`
that receives a datagram whose sequence number differs from `i`, and in which
the timer reading does not exceed `TIMEOUT`, only reads that datagram:
nothing is transmitted, and the sequence number `i` and the retransmission
counter are unchanged, the function staying in the loop. -/
theorem stopWaitPass_ignores_other_ack (max : Int) (s : StopWait) (o : Obs)
    (hp : o.poll > 0) (hs : o.seq ≠ s.i) (ht : o.lap ≤ TIMEOUT) :
    stopWaitPass max s o = (Ctl.loop s, [Event.recv o.seq]) ∧
    sends (stopWaitPass max s o).2 = [] ∧
    (stopWaitPass max s o).1.locals.i = s.i ∧
    (stopWaitPass max s o).1.locals.retransmissions = s.retransmissions := by
  have hpass : stopWaitPass max s o = (Ctl.loop s, [Event.recv o.seq]) := by
    rw [stopWaitPass_eq, if_neg (fun h => hs h.2), if_neg (not_lt.mpr ht)]
    simp [recvEvents, hp]
  rw [hpass]
  exact ⟨rfl, rfl, rfl, rfl⟩

/-- C14 while waiting for the acknowledgment of `1`: a second acknowledgment
of `0` is read and nothing else happens. -/
theorem stopWaitPass_ignores_other_ack_witness :
    stopWaitPass 3 ⟨1, 0⟩ ⟨1, 0, 20⟩ = (Ctl.loop ⟨1, 0⟩, [Event.recv 0]) :=
  (stopWaitPass_ignores_other_ack 3 ⟨1, 0⟩ ⟨1, 0, 20⟩ (by decide) (by decide) (by decide)).1

/-! ## clientSlidingWindow: single passes -/

theorem slidingHead_facts (max windowSize : Int) (s : Sliding) :
    (slidingHead max windowSize s).1.locals.retransmissions = s.retransmissions ∧
    (slidingHead max windowSize s).1.locals.minUnacked = s.minUnacked ∧
    (slidingHead max windowSize s).2.count Event.timeout = 0 :=
  slidingFor_facts max windowSize _ s

theorem slidingPass_minUnacked (max windowSize : Int) (s : Sliding) (o : Obs) :
    (slidingPass max windowSize s o).1.locals.minUnacked
      = s.minUnacked + (if o.poll > 0 ∧ o.seq = s.minUnacked then 1 else 0) := by
  rw [slidingPass_eq]
  by_cases hm : o.poll > 0 ∧ o.seq = s.minUnacked
  · simp only [hm, and_self, if_true]
    exact (slidingHead_facts max windowSize _).2.1
  · by_cases ht : o.lap > TIMEOUT
    · simp only [hm, ht, if_true, if_false]
      rw [(slidingHead_facts max windowSize _).2.1]
      simp
    · simp [hm, ht, Ctl.locals]

theorem slidingPass_ignores (max windowSize : Int) (s : Sliding) (o : Obs)
    (hp : o.poll > 0) (hs : o.seq ≠ s.minUnacked) (ht : o.lap ≤ TIMEOUT) :
    slidingPass max windowSize s o = (Ctl.loop s, [Event.recv o.seq]) := by
  rw [slidingPass_eq, if_neg (fun h => hs h.2), if_neg (not_lt.mpr ht)]
  simp [recvEvents, hp]

/-- C12. In `clientSlidingWindow` the base `minUnacked` never decreases.  A
pass adds `1` to it if the pass received a datagram whose sequence number
equals the current `minUnacked`, and leaves it unchanged otherwise; so from
each pass of a run to the next the base is the same or one more, the latter
only after such a datagram.  A pass that receives a datagram with another
sequence number, with the timer reading not above `TIMEOUT`, only reads the
datagram: the base, the number in transit, the send cursor and the
retransmission counter are unchanged and nothing is transmitted. -/
theorem clientSlidingWindow_base_monotone (max windowSize : Int) (obs : List Obs) :
    (∀ s o, (slidingPass max windowSize s o).1.locals.minUnacked
      = s.minUnacked + (if o.poll > 0 ∧ o.seq = s.minUnacked then 1 else 0)) ∧
    List.Chain' (fun p q : Sliding × Obs =>
        q.1.minUnacked = p.1.minUnacked ∨
        (q.1.minUnacked = p.1.minUnacked + 1 ∧ p.2.poll > 0 ∧ p.2.seq = p.1.minUnacked))
      (clientSlidingWindowPasses max windowSize obs) ∧
    (∀ s o, o.poll > 0 → o.seq ≠ s.minUnacked → o.lap ≤ TIMEOUT →
      slidingPass max windowSize s o = (Ctl.loop s, [Event.recv o.seq]) ∧
      sends (slidingPass max windowSize s o).2 = []) := by
  refine ⟨slidingPass_minUnacked max windowSize, ?_, ?_⟩
  · refine List.Chain'.imp ?_ (passesOf_chain (slidingPass max windowSize) obs _)
    intro p q h
    have h1 := slidingPass_minUnacked max windowSize p.1 p.2
    rw [h] at h1
    simp only [Ctl.locals] at h1
    by_cases hm : p.2.poll > 0 ∧ p.2.seq = p.1.minUnacked
    · right
      rw [if_pos hm] at h1
      exact ⟨h1, hm⟩
    · left
      rw [if_neg hm] at h1
      simpa using h1
  · intro s o hp hs ht
    have h := slidingPass_ignores max windowSize s o hp hs ht
    rw [h]
    exact ⟨rfl, rfl⟩

/-- C12 with the window `0, 1` in flight and base `0`: the acknowledgment of
`1` is read and changes nothing. -/
theorem clientSlidingWindow_base_monotone_witness :
    slidingPass 4 2 ⟨1, 0, 0, 2⟩ ⟨1, 1, 10⟩ = (Ctl.loop ⟨1, 0, 0, 2⟩, [Event.recv 1]) :=
  ((clientSlidingWindow_base_monotone 4 2 []).2.2 ⟨1, 0, 0, 2⟩ ⟨1, 1, 10⟩
    (by decide) (by decide) (by decide)).1

/-! ## The timeout of the senders -/

/-- The timeout test of both senders compares the timer reading with the fixed
timeout `1500` strictly.  With a reading of `1500` or less the timeout test does nothing, and
the pass takes no timeout branch and leaves the retransmission counter
unchanged.  With a reading of `1501` or more the timeout test, whenever it is
reached (the pass has not just received the acknowledgment it waits for),
takes the timeout branch once: `clientStopWait` adds `1` to its counter and
`clientSlidingWindow` adds `windowSize`. -/
theorem timeout_is_strict (max windowSize : Int) (s : StopWait) (t : Sliding) (o : Obs) :
    TIMEOUT = 1500 ∧
    (o.lap ≤ 1500 →
      stopWaitTimer max s o = (Ctl.loop s, []) ∧
      slidingTimer max windowSize t o = (Ctl.loop t, []) ∧
      (stopWaitPass max s o).2.count Event.timeout = 0 ∧
      (stopWaitPass max s o).1.locals.retransmissions = s.retransmissions ∧
      (slidingPass max windowSize t o).2.count Event.timeout = 0 ∧
      (slidingPass max windowSize t o).1.locals.retransmissions = t.retransmissions) ∧
    (1501 ≤ o.lap →
      (¬ (o.poll > 0 ∧ o.seq = s.i) →
        (stopWaitPass max s o).2.count Event.timeout = 1 ∧
        (stopWaitPass max s o).1.locals.retransmissions = s.retransmissions + 1) ∧
      (¬ (o.poll > 0 ∧ o.seq = t.minUnacked) →
        (slidingPass max windowSize t o).2.count Event.timeout = 1 ∧
        (slidingPass max windowSize t o).1.locals.retransmissions
          = t.retransmissions + windowSize)) := by
  obtain ⟨h1, h2⟩ := stopWaitPass_retransmissions max s o
  obtain ⟨h3, h4⟩ := slidingPass_retransmissions max windowSize t o
  refine ⟨rfl, ?_, ?_⟩
  · intro hl
    have hnt : ¬ o.lap > TIMEOUT := by unfold TIMEOUT; omega
    have e1 : stopWaitTimedOut (s, o) = false := by simp [stopWaitTimedOut, hnt]
    have e2 : slidingTimedOut (t, o) = false := by simp [slidingTimedOut, hnt]
    rw [e1] at h1 h2
    rw [e2] at h3 h4
    refine ⟨?_, ?_, by simpa using h2, by simpa using h1, by simpa using h4,
      by simpa using h3⟩
    · unfold stopWaitTimer; rw [if_neg hnt]
    · unfold slidingTimer; rw [if_neg hnt]
  · intro hl
    have ht : o.lap > TIMEOUT := by unfold TIMEOUT; omega
    constructor
    · intro hm
      have e1 : stopWaitTimedOut (s, o) = true := by simp [stopWaitTimedOut, ht, hm]
      rw [e1] at h1 h2
      exact ⟨by simpa using h2, by simpa using h1⟩
    · intro hm
      have e2 : slidingTimedOut (t, o) = true := by simp [slidingTimedOut, ht, hm]
      rw [e2] at h3 h4
      exact ⟨by simpa using h4, by simpa using h3⟩

/-- The timeout test at the readings `1500` and `1501` with no datagram to
read: the first takes no timeout branch, the second takes one. -/
theorem timeout_is_strict_witness :
    (stopWaitPass 3 ⟨1, 0⟩ ⟨0, 0, 1500⟩).2.count Event.timeout = 0 ∧
    (stopWaitPass 3 ⟨1, 0⟩ ⟨0, 0, 1501⟩).2.count Event.timeout = 1 :=
  ⟨((timeout_is_strict 3 2 ⟨1, 0⟩ ⟨1, 0, 0, 2⟩ ⟨0, 0, 1500⟩).2.1 (by decide)).2.2.1,
   (((timeout_is_strict 3 2 ⟨1, 0⟩ ⟨1, 0, 0, 2⟩ ⟨0, 0, 1501⟩).2.2 (by decide)).1
      (by decide)).1⟩

/-! ## serverEarlyRetrans: acknowledgments -/

/-- C13. In every pass of a run of `serverEarlyRetrans` that receives a
datagram, in order or not, exactly one acknowledgment is sent, and it carries
`recent` as it is after the datagram has been processed: when the function
waits for `i`, a datagram with sequence number `i` is answered with `i` and
any other datagram with `i - 1`, which is `-1` while nothing has been
accepted.  At every point of the run `recent` is `i - 1`, the highest
sequence number accepted so far, the accepted ones being `0, ..., i - 1`. -/
theorem serverEarlyRetrans_acks_recent (max windowSize : Int) (rx : List Rx)
    (p : EarlyRetrans × Rx) (hp : p ∈ serverEarlyRetransPasses max rx)
    (hpoll : p.2.poll > 0) :
    acks (earlyRetransPass max p.1 p.2).2 = [if p.2.seq = p.1.i then p.1.i else p.1.i - 1] ∧
    acks (earlyRetransPass max p.1 p.2).2 = [(earlyRetransPass max p.1 p.2).1.locals.recent] ∧
    (p.1.i = 0 → p.2.seq ≠ 0 → acks (earlyRetransPass max p.1 p.2).2 = [-1]) ∧
    (serverEarlyRetrans max windowSize rx).1.locals.recent
      = (serverEarlyRetrans max windowSize rx).1.locals.i - 1 ∧
    accepts (serverEarlyRetrans max windowSize rx).2
      = seqsUpTo (serverEarlyRetrans max windowSize rx).1.locals.i := by
  obtain ⟨hacc, _, hrec, _, _, _, _, hps⟩ := serverEarlyRetrans_inv max windowSize rx
  have hr : p.1.recent = p.1.i - 1 := hps p hp
  have hne : p.1.recent ≠ p.1.i := by omega
  rw [earlyRetransPass_eq max p.1 p.2 hne, if_pos hpoll]
  refine ⟨?_, ?_, ?_, hrec, hacc⟩
  · by_cases hs : p.2.seq = p.1.i
    · simp [hs, acks]
    · simp [hs, acks, hr]
  · by_cases hs : p.2.seq = p.1.i
    · simp [hs, acks, earlyRetransHead_locals]
    · simp [hs, acks, Ctl.locals]
  · intro h0 h1
    have hs : ¬ p.2.seq = p.1.i := by rw [h0]; exact h1
    rw [if_neg hs]
    simp [acks, hr, h0]

/-- C13 on the run over the datagrams `1, 0, 0`: the datagram `1` arrives
while `0` is expected and is answered with `-1`. -/
theorem serverEarlyRetrans_acks_recent_witness :
    acks (earlyRetransPass 2 ⟨0, -1⟩ ⟨1, 1⟩).2 = [if (1 : Int) = 0 then 0 else 0 - 1] :=
  (serverEarlyRetrans_acks_recent 2 5 [⟨1, 1⟩, ⟨1, 0⟩, ⟨1, 0⟩] (⟨0, -1⟩, ⟨1, 1⟩)
    (by decide) (by decide)).1

/-! ## serverReliable: termination -/

theorem reliablePass_le_succ (max : Int) (s : Reliable) (o : Rx) :
    (reliablePass max s o).1.locals.i ≤ s.i + 1 := by
  rw [reliablePass_eq]
  by_cases hm : o.poll > 0 ∧ o.seq ≤ s.i
  · simp only [hm, and_self, if_true, reliableHead_locals]
    omega
  · simp only [hm, if_false, Ctl.locals]
    omega

theorem serverReliable_last (max : Int) (rx : List Rx) :
    ((serverReliable max rx).1.returned = false →
      (serverReliable max rx).1.locals.i < max ∧ max - 1 ∉ acks (serverReliable max rx).2) ∧
    ((serverReliable max rx).1.returned = true → 1 ≤ max →
      ∃ pre, (serverReliable max rx).2
          = pre ++ [Event.recv (max - 1), Event.ack (max - 1)] ∧
        max - 1 ∉ acks pre) := by
  have h := runLoop_invariant (reliablePass max)
    (fun c tr (_ : List (Reliable × Rx)) =>
      (c.returned = false → c.locals.i < max ∧ max - 1 ∉ acks tr) ∧
      (c.returned = true → 1 ≤ max →
        ∃ pre, tr = pre ++ [Event.recv (max - 1), Event.ack (max - 1)] ∧ max - 1 ∉ acks pre))
    (by
      intro s o tr ps ⟨h1, _⟩
      obtain ⟨hlt, hno⟩ := h1 rfl
      simp only [Ctl.locals] at hlt
      rw [reliablePass_eq]
      by_cases hm : o.poll > 0 ∧ o.seq ≤ s.i
      · have hr := reliableHead_returned max ⟨o.seq + 1⟩
        simp only [hm, and_self, if_true, reliableHead_locals]
        constructor
        · intro hf
          have := hr.1 hf
          simp only at this
          refine ⟨this, ?_⟩
          rw [acks_append]
          simp only [acks, List.mem_append, List.mem_singleton, not_or]
          exact ⟨hno, by omega⟩
        · intro ht _
          have := hr.2 ht
          simp only at this
          have hs : o.seq = max - 1 := by omega
          rw [hs]
          exact ⟨tr, rfl, hno⟩
      · simp only [hm, if_false, Ctl.locals, Ctl.returned]
        constructor
        · intro _
          refine ⟨hlt, ?_⟩
          rw [acks_append]
          split <;> simpa [acks] using hno
        · intro hf; cases hf)
    rx (reliableHead max ⟨0⟩).1 (reliableHead max ⟨0⟩).2 []
    (by
      have hr := reliableHead_returned max ⟨0⟩
      refine ⟨fun hf => ⟨?_, ?_⟩, fun ht h1 => ?_⟩
      · rw [reliableHead_locals]; exact hr.1 hf
      · rw [reliableHead_snd]; simp [acks]
      · have := hr.2 ht
        simp only at this
        omega)
  exact h

/-- C19. For every `max ≥ 1` and every terminating run of `serverReliable`
over an arbitrary stream of datagrams: no pass increases the expected
sequence number by more than `1`; the run ends with the receipt and
acknowledgment of a datagram with sequence number `max - 1`, and no datagram
with that number was accepted before, so the function returns exactly in the
step that accepts `max - 1`; and every sequence number `0, ..., max - 1` has
been accepted at least once. -/
theorem serverReliable_no_skip (max : Int) (rx : List Rx) (hmax : 1 ≤ max)
    (hterm : (serverReliable max rx).1.returned = true) :
    (∀ s o, (reliablePass max s o).1.locals.i ≤ s.i + 1) ∧
    (∃ pre, (serverReliable max rx).2 = pre ++ [Event.recv (max - 1), Event.ack (max - 1)] ∧
      max - 1 ∉ acks pre) ∧
    (∀ j, 0 ≤ j → j < max → j ∈ acks (serverReliable max rx).2) := by
  refine ⟨reliablePass_le_succ max, (serverReliable_last max rx).2 hterm hmax, ?_⟩
  obtain ⟨hall, _, _, _, _, _, _, hd, _, _⟩ := serverReliable_inv max rx
  intro j hj0 hj1
  exact hall j hj0 (lt_of_lt_of_le hj1 (hd hterm))

/-- C19 on a terminating run with `max = 3` in which the datagram `0` is
delivered again after `1`: the number `1` is among the accepted ones. -/
theorem serverReliable_no_skip_witness :
    (1 : Int) ∈ acks (serverReliable 3 [⟨1, 0⟩, ⟨1, 1⟩, ⟨1, 0⟩, ⟨1, 5⟩, ⟨1, 1⟩, ⟨1, 2⟩]).2 :=
  (serverReliable_no_skip 3 [⟨1, 0⟩, ⟨1, 1⟩, ⟨1, 0⟩, ⟨1, 5⟩, ⟨1, 1⟩, ⟨1, 2⟩]
    (by decide) (by decide)).2.2 1 (by decide) (by decide)

/-! ## clientSlidingWindow: the number in transit -/

theorem slidingFor_intransit (max windowSize : Int) :
    ∀ (n : Nat) (s : Sliding), s.intransit ≤ windowSize →
      s.intransit ≤ (slidingFor max windowSize n s).1.locals.intransit ∧
      (slidingFor max windowSize n s).1.locals.intransit ≤ windowSize ∧
      ((slidingFor max windowSize n s).1.returned = false →
        (slidingFor max windowSize n s).1.locals.intransit = windowSize) := by
  intro n
  induction n with
  | zero => intro s h; simp [slidingFor, Ctl.locals, Ctl.returned, h]
  | succ n ih =>
    intro s h
    simp only [slidingFor]
    by_cases hlt : s.i < max
    · by_cases h1 : s.intransit < windowSize
      · by_cases h2 : s.intransit + 1 = windowSize
        · simp only [hlt, h1, h2, if_true, Ctl.locals, Ctl.returned]
          exact ⟨by omega, by omega, fun _ => trivial⟩
        · obtain ⟨h3, h4, h5⟩ := ih { s with intransit := s.intransit + 1, i := s.i + 1 }
            (by simp only; omega)
          simp only [hlt, h1, h2, if_true, if_false]
          simp only at h3
          exact ⟨by omega, h4, h5⟩
      · by_cases h2 : s.intransit = windowSize
        · simp only [hlt, h1, h2, if_true, if_false, Ctl.locals, Ctl.returned]
          simp [h2]
        · omega
    · simp only [hlt, if_false, Ctl.locals, Ctl.returned]
      simp [h]

theorem slidingPass_intransit (max windowSize : Int) (hws : 1 ≤ windowSize) (s : Sliding)
    (o : Obs) (hs : s.intransit = windowSize) :
    0 ≤ (slidingPass max windowSize s o).1.locals.intransit ∧
    (slidingPass max windowSize s o).1.locals.intransit ≤ windowSize ∧
    ((slidingPass max windowSize s o).1.returned = false →
      (slidingPass max windowSize s o).1.locals.intransit = windowSize) := by
  rw [slidingPass_eq]
  by_cases hm : o.poll > 0 ∧ o.seq = s.minUnacked
  · simp only [hm, and_self, if_true]
    obtain ⟨h1, h2, h3⟩ := slidingFor_intransit max windowSize
      (max - (s.i + 1)).toNat ⟨s.i + 1, s.retransmissions, s.minUnacked + 1, s.intransit - 1⟩
      (by simp only; omega)
    simp only at h1
    exact ⟨by unfold slidingHead; simp only; omega, h2, h3⟩
  · by_cases ht : o.lap > TIMEOUT
    · simp only [hm, ht, if_true, if_false]
      obtain ⟨h1, h2, h3⟩ := slidingFor_intransit max windowSize
        (max - (s.minUnacked + 1)).toNat
        ⟨s.minUnacked + 1, s.retransmissions + windowSize, s.minUnacked, 0⟩
        (by simp only; omega)
      simp only at h1
      exact ⟨by unfold slidingHead; simp only; omega, h2, h3⟩
    · simp only [hm, ht, if_false, Ctl.locals, Ctl.returned]
      exact ⟨by omega, by omega, fun _ => hs⟩

/-- C20. In `clientSlidingWindow` with `windowSize ≥ 1` the counter `intransit`
satisfies `0 ≤ intransit ≤ windowSize` at every control point of every run,
and equals `windowSize` whenever the function is polling; so the decrement,
which happens only in a pass that receives the acknowledgment of
`minUnacked`, applies to the value `windowSize`.  The head of the `for` loop
never decreases the counter and never takes it above `windowSize`, the
increment being guarded by `intransit < windowSize`; a pass in which the
timeout fires restarts the loop head from `intransit = 0`; a pass that does
neither keeps all local variables. -/
theorem clientSlidingWindow_intransit_bounds (max windowSize : Int) (obs : List Obs)
    (hws : 1 ≤ windowSize) :
    0 ≤ (clientSlidingWindow max windowSize obs).1.locals.intransit ∧
    (clientSlidingWindow max windowSize obs).1.locals.intransit ≤ windowSize ∧
    ((clientSlidingWindow max windowSize obs).1.returned = false →
      (clientSlidingWindow max windowSize obs).1.locals.intransit = windowSize) ∧
    (∀ p ∈ clientSlidingWindowPasses max windowSize obs, p.1.intransit = windowSize) ∧
    (∀ s : Sliding, s.intransit ≤ windowSize →
      s.intransit ≤ (slidingHead max windowSize s).1.locals.intransit ∧
      (slidingHead max windowSize s).1.locals.intransit ≤ windowSize) ∧
    (∀ s o, o.poll > 0 ∧ o.seq = s.minUnacked →
      ∃ s0 : Sliding, s0.intransit = s.intransit - 1 ∧
        (slidingPass max windowSize s o).1 = (slidingHead max windowSize s0).1) ∧
    (∀ s o, ¬ (o.poll > 0 ∧ o.seq = s.minUnacked) → o.lap > TIMEOUT →
      ∃ s0 : Sliding, s0.intransit = 0 ∧
        (slidingPass max windowSize s o).1 = (slidingHead max windowSize s0).1) ∧
    (∀ s o, ¬ (o.poll > 0 ∧ o.seq = s.minUnacked) → o.lap ≤ TIMEOUT →
      (slidingPass max windowSize s o).1 = Ctl.loop s) := by
  have hinit := slidingFor_intransit max windowSize (max - slidingInit.i).toNat slidingInit
    (by simp only [slidingInit]; omega)
  have hrun := runLoop_invariant (slidingPass max windowSize)
    (fun c _ (_ : List (Sliding × Obs)) =>
      0 ≤ c.locals.intransit ∧ c.locals.intransit ≤ windowSize ∧
      (c.returned = false → c.locals.intransit = windowSize))
    (fun s o _ _ h => slidingPass_intransit max windowSize hws s o (h.2.2 rfl))
    obs (slidingHead max windowSize slidingInit).1 (slidingHead max windowSize slidingInit).2 []
    ⟨le_trans (le_refl _) hinit.1, hinit.2.1, hinit.2.2⟩
  have hpasses : ∀ p ∈ clientSlidingWindowPasses max windowSize obs,
      p.1.intransit = windowSize := by
    refine passesOf_forall (slidingPass max windowSize) (fun s => s.intransit = windowSize)
      ?_ obs _ ?_
    · intro s o s1 hs h
      have h1 := (slidingPass_intransit max windowSize hws s o hs).2.2
      rw [h] at h1
      exact h1 rfl
    · intro s h
      have h1 := hinit.2.2
      unfold slidingHead at h
      rw [h] at h1
      exact h1 rfl
  refine ⟨hrun.1, hrun.2.1, hrun.2.2, hpasses, ?_, ?_, ?_, ?_⟩
  · intro s hs
    have h := slidingFor_intransit max windowSize (max - s.i).toNat s hs
    exact ⟨h.1, h.2.1⟩
  · intro s o hm
    refine ⟨⟨s.i + 1, s.retransmissions, s.minUnacked + 1, s.intransit - 1⟩, rfl, ?_⟩
    rw [slidingPass_eq, if_pos hm]
  · intro s o hm ht
    refine ⟨⟨s.minUnacked + 1, s.retransmissions + windowSize, s.minUnacked, 0⟩, rfl, ?_⟩
    rw [slidingPass_eq, if_neg hm, if_pos ht]
  · intro s o hm ht
    rw [slidingPass_eq, if_neg hm, if_neg (not_lt.mpr ht)]

/-- C20 on a run with `max = 5`, `windowSize = 2`, an acknowledgment and a
timeout: the function is polling at the end and `intransit` is `2`. -/
theorem clientSlidingWindow_intransit_bounds_witness :
    (clientSlidingWindow 5 2 [⟨1, 0, 0⟩, ⟨0, 0, 1501⟩, ⟨1, 7, 3⟩]).1.locals.intransit ≤ 2 :=
  (clientSlidingWindow_intransit_bounds 5 2 [⟨1, 0, 0⟩, ⟨0, 0, 1501⟩, ⟨1, 7, 3⟩]
    (by decide)).2.1

/-! ## Runs without loss -/

theorem sends_idleEvents (l : List Obs) : sends (idleEvents l) = [] := by
  induction l with
  | nil => rfl
  | cons o l ih => simp [idleEvents, sends_append, sends_recvEvents, ih]

theorem timeout_not_mem_recvEvents (o : Obs) : Event.timeout ∉ recvEvents o := by
  unfold recvEvents; split <;> simp

theorem timeout_not_mem_idleEvents (l : List Obs) : Event.timeout ∉ idleEvents l := by
  induction l with
  | nil => simp [idleEvents]
  | cons o l ih => simp [idleEvents, timeout_not_mem_recvEvents, ih]

/-- Passes that keep the local variables and only read what there is to read
can be skipped: the run goes on from the same state. -/
theorem runLoop_idle {σ : Type} (pass : σ → Obs → Ctl σ × List Event) (s : σ) :
    ∀ (idle rest : List Obs), (∀ o ∈ idle, pass s o = (Ctl.loop s, recvEvents o)) →
      runLoop pass (Ctl.loop s) (idle ++ rest)
        = ((runLoop pass (Ctl.loop s) rest).1,
            idleEvents idle ++ (runLoop pass (Ctl.loop s) rest).2) := by
  intro idle
  induction idle with
  | nil => intro rest _; simp [idleEvents]
  | cons o idle ih =>
    intro rest h
    have ho := h o (by simp)
    have ih1 := ih rest (fun o1 h1 => h o1 (List.mem_cons_of_mem _ h1))
    have e : (o :: idle) ++ rest = o :: (idle ++ rest) := rfl
    rw [e]
    simp only [runLoop]
    rw [ho]
    simp only []
    rw [ih1]
    simp [idleEvents]

theorem answersFrom_cons (i : Int) (r : List Obs × Obs) (rs : List (List Obs × Obs))
    (h : answersFrom i (r :: rs) = true) :
    (∀ o ∈ r.1, ¬ (o.poll > 0 ∧ o.seq = i) ∧ o.lap ≤ TIMEOUT) ∧
    (r.2.poll > 0 ∧ r.2.seq = i) ∧ answersFrom (i + 1) rs = true := by
  simp only [answersFrom, Bool.and_eq_true, List.all_eq_true, decide_eq_true_eq] at h
  exact ⟨h.1.1, h.1.2, h.2⟩

theorem clientStopWait_no_loss_from (max : Int) :
    ∀ (rounds : List (List Obs × Obs)) (i r : Int), 0 ≤ i → i + rounds.length = max →
      answersFrom i rounds = true →
      (runLoop (stopWaitPass max) (stopWaitHead max ⟨i, r⟩).1 (obsOfRounds rounds)).1
        = Ctl.done ⟨max, r⟩ ∧
      seqsUpTo i ++ sends ((stopWaitHead max ⟨i, r⟩).2 ++
        (runLoop (stopWaitPass max) (stopWaitHead max ⟨i, r⟩).1 (obsOfRounds rounds)).2)
        = seqsUpTo max ∧
      Event.timeout ∉ (stopWaitHead max ⟨i, r⟩).2 ++
        (runLoop (stopWaitPass max) (stopWaitHead max ⟨i, r⟩).1 (obsOfRounds rounds)).2 := by
  intro rounds
  induction rounds with
  | nil =>
    intro i r _ hlen _
    have hi : i = max := by simpa using hlen
    subst hi
    simp [stopWaitHead, obsOfRounds, runLoop, sends]
  | cons rd rs ih =>
    intro i r hi hlen hans
    obtain ⟨hidle, hack, hrest⟩ := answersFrom_cons i rd rs hans
    have hlt : i < max := by
      simp only [List.length_cons] at hlen
      push_cast at hlen
      omega
    have hlen1 : i + 1 + (rs.length : Int) = max := by
      simp only [List.length_cons] at hlen
      push_cast at hlen
      omega
    obtain ⟨h1, h2, h3⟩ := ih (i + 1) r (by omega) hlen1 hrest
    have hpass : ∀ o ∈ rd.1, stopWaitPass max ⟨i, r⟩ o = (Ctl.loop ⟨i, r⟩, recvEvents o) := by
      intro o ho
      obtain ⟨hn, ht⟩ := hidle o ho
      rw [stopWaitPass_eq, if_neg hn, if_neg (not_lt.mpr ht)]
    have hans1 : stopWaitPass max ⟨i, r⟩ rd.2
        = ((stopWaitHead max ⟨i + 1, r⟩).1, Event.recv i :: (stopWaitHead max ⟨i + 1, r⟩).2) := by
      rw [stopWaitPass_eq, if_pos hack]
    have hhead : stopWaitHead max ⟨i, r⟩ = (Ctl.loop ⟨i, r⟩, [Event.send i, Event.start]) := by
      simp [stopWaitHead, hlt]
    rw [hhead]
    simp only [obsOfRounds]
    rw [runLoop_idle (stopWaitPass max) ⟨i, r⟩ rd.1 _ hpass]
    simp only [runLoop, hans1]
    refine ⟨h1, ?_, ?_⟩
    · rw [← h2, seqsUpTo_succ i hi]
      simp [sends_append, sends, sends_idleEvents]
    · simpa [timeout_not_mem_idleEvents] using h3

/-- C15. In a run of `clientStopWait` without loss, that is, over a schedule of
`max` rounds in which round `i` consists of passes that neither receive the
acknowledgment of `i` nor read the timer above `TIMEOUT` and then of the
pass that receives the acknowledgment carrying `i`, the function returns,
the value returned is `0`, no timeout branch is taken, and the sequence
numbers transmitted are exactly `0, 1, ..., max - 1`, once each, in that
order.  Every `max ≥ 0` is the number of rounds of such a schedule. -/
theorem clientStopWait_no_loss (max : Int) (rounds : List (List Obs × Obs))
    (hlen : (rounds.length : Int) = max) (hans : answersFrom 0 rounds = true) :
    (clientStopWait max (obsOfRounds rounds)).1 = Ctl.done ⟨max, 0⟩ ∧
    (clientStopWait max (obsOfRounds rounds)).1.locals.retransmissions = 0 ∧
    sends (clientStopWait max (obsOfRounds rounds)).2 = seqsUpTo max ∧
    Event.timeout ∉ (clientStopWait max (obsOfRounds rounds)).2 := by
  obtain ⟨h1, h2, h3⟩ := clientStopWait_no_loss_from max rounds 0 0 (le_refl _)
    (by omega) hans
  have e : seqsUpTo 0 = [] := seqsUpTo_of_nonpos 0 (le_refl _)
  rw [e, List.nil_append] at h2
  refine ⟨h1, ?_, h2, h3⟩
  show (runLoop (stopWaitPass max) (stopWaitHead max ⟨0, 0⟩).1
    (obsOfRounds rounds)).1.locals.retransmissions = 0
  rw [h1]
  rfl

/-- C15 at `max = 3`: with the acknowledgments `0, 1, 2` arriving in time, the
second after an empty poll and the third after a repeated acknowledgment of
`1`, the transmissions are `0, 1, 2` and the function returns `0`. -/
theorem clientStopWait_no_loss_witness :
    (clientStopWait 3 (obsOfRounds
      [([], ⟨1, 0, 0⟩), ([⟨0, 0, 7⟩], ⟨1, 1, 0⟩), ([⟨1, 1, 9⟩], ⟨1, 2, 0⟩)])).1
      = Ctl.done ⟨3, 0⟩ ∧
    sends (clientStopWait 3 (obsOfRounds
      [([], ⟨1, 0, 0⟩), ([⟨0, 0, 7⟩], ⟨1, 1, 0⟩), ([⟨1, 1, 9⟩], ⟨1, 2, 0⟩)])).2
      = [0, 1, 2] :=
  ⟨(clientStopWait_no_loss 3
      [([], ⟨1, 0, 0⟩), ([⟨0, 0, 7⟩], ⟨1, 1, 0⟩), ([⟨1, 1, 9⟩], ⟨1, 2, 0⟩)]
      (by decide) (by decide)).1,
    by decide⟩

theorem slidingCtlOK_idle (max windowSize : Int) (s : Sliding) (tr : List Event)
    (idle : List Obs) (h : SlidingCtlOK max windowSize (Ctl.loop s) tr) :
    SlidingCtlOK max windowSize (Ctl.loop s) (tr ++ idleEvents idle) := by
  obtain ⟨h1, h2, h3, h4, hr, h5, h6⟩ := h
  refine ⟨h1, h2, h3, h4, hr, ?_, ?_⟩
  · rw [sends_append, sends_idleEvents, List.append_nil, h5]
  · intro j hj0 hj1
    exact List.mem_append_left _ (h6 j hj0 hj1)

theorem clientSlidingWindow_no_loss_from (max windowSize : Int) (hws : 1 ≤ windowSize) :
    ∀ (rounds : List (List Obs × Obs)) (c : Ctl Sliding) (tr : List Event),
      Event.timeout ∉ tr → SlidingCtlOK max windowSize c tr →
      (∀ s, c = Ctl.loop s → answersFrom s.minUnacked rounds = true ∧
        s.minUnacked + (rounds.length : Int) = max - windowSize + 1) →
      (runLoop (slidingPass max windowSize) c (obsOfRounds rounds)).1.returned = true ∧
      Event.timeout ∉ tr ++ (runLoop (slidingPass max windowSize) c (obsOfRounds rounds)).2 := by
  intro rounds
  induction rounds with
  | nil =>
    intro c tr hno hok hc
    cases c with
    | done s => simpa [runLoop, Ctl.returned] using hno
    | loop s =>
      obtain ⟨_, h2, h3, _⟩ := hok
      have := (hc s rfl).2
      simp only [List.length_nil] at this
      push_cast at this
      omega
  | cons rd rs ih =>
    intro c tr hno hok hc
    cases c with
    | done s => simpa [runLoop, Ctl.returned] using hno
    | loop s =>
      obtain ⟨hans, hlen⟩ := hc s rfl
      obtain ⟨hidle, hack, hrest⟩ := answersFrom_cons s.minUnacked rd rs hans
      have hpass : ∀ o ∈ rd.1,
          slidingPass max windowSize s o = (Ctl.loop s, recvEvents o) := by
        intro o ho
        obtain ⟨hn, ht⟩ := hidle o ho
        rw [slidingPass_eq, if_neg hn, if_neg (not_lt.mpr ht)]
      have hok1 := slidingCtlOK_idle max windowSize s tr rd.1 hok
      have hno1 : Event.timeout ∉ tr ++ idleEvents rd.1 := by
        simp [hno, timeout_not_mem_idleEvents]
      have hcount := (slidingPass_retransmissions max windowSize s rd.2).2
      have hto : slidingTimedOut (s, rd.2) = false := by simp [slidingTimedOut, hack]
      rw [hto] at hcount
      have hno2 : Event.timeout ∉
          (tr ++ idleEvents rd.1) ++ (slidingPass max windowSize s rd.2).2 := by
        intro hmem
        rcases List.mem_append.mp hmem with hmem | hmem
        · exact hno1 hmem
        · exact (List.count_eq_zero.mp (by simpa using hcount)) hmem
      have hok2 := slidingCtlOK_step max windowSize hws s rd.2 (tr ++ idleEvents rd.1)
        (fun _ => hok1) hno2
      have hbase := slidingPass_minUnacked max windowSize s rd.2
      rw [if_pos hack] at hbase
      obtain ⟨h1, h2⟩ := ih (slidingPass max windowSize s rd.2).1
        ((tr ++ idleEvents rd.1) ++ (slidingPass max windowSize s rd.2).2) hno2 hok2
        (by
          intro s1 hs1
          rw [hs1] at hbase
          simp only [Ctl.locals] at hbase
          rw [hbase]
          refine ⟨hrest, ?_⟩
          simp only [List.length_cons] at hlen
          push_cast at hlen
          omega)
      simp only [obsOfRounds]
      rw [runLoop_idle (slidingPass max windowSize) s rd.1 _ hpass]
      simp only [runLoop]
      refine ⟨h1, ?_⟩
      simpa [List.append_assoc] using h2

/-- C16. In a run of `clientSlidingWindow` with `windowSize ≥ 1` over a schedule
without timeout in which the acknowledgments of the bases `0, 1, ...` are
received in turn while the window is full (one round for each base up to
`max - windowSize`, none if `windowSize > max`), the function returns, the
value returned is `0`, and the sequence numbers transmitted are exactly
`0, 1, ..., max - 1`, once each, in increasing order.  In every run without
timeout the function, whenever it is polling, has `windowSize` datagrams in
transit and has transmitted exactly the sequence numbers below
`minUnacked + windowSize`: the next one is sent as soon as fewer than
`windowSize` are in transit. -/
theorem clientSlidingWindow_no_loss (max windowSize : Int) (rounds : List (List Obs × Obs))
    (hmax : 0 ≤ max) (hws : 1 ≤ windowSize)
    (hlen : rounds.length = (max - windowSize + 1).toNat)
    (hans : answersFrom 0 rounds = true) :
    (clientSlidingWindow max windowSize (obsOfRounds rounds)).1.returned = true ∧
    (clientSlidingWindow max windowSize (obsOfRounds rounds)).1.locals.retransmissions = 0 ∧
    sends (clientSlidingWindow max windowSize (obsOfRounds rounds)).2 = seqsUpTo max ∧
    Event.timeout ∉ (clientSlidingWindow max windowSize (obsOfRounds rounds)).2 ∧
    (∀ obs : List Obs, Event.timeout ∉ (clientSlidingWindow max windowSize obs).2 →
      (clientSlidingWindow max windowSize obs).1.returned = false →
      (clientSlidingWindow max windowSize obs).1.locals.intransit = windowSize ∧
      sends (clientSlidingWindow max windowSize obs).2
        = seqsUpTo ((clientSlidingWindow max windowSize obs).1.locals.minUnacked
            + windowSize)) := by
  have hinit := slidingCtlOK_init max windowSize hmax hws
  have hno0 : Event.timeout ∉ (slidingHead max windowSize slidingInit).2 :=
    List.count_eq_zero.mp (slidingHead_facts max windowSize slidingInit).2.2
  have hrun := clientSlidingWindow_no_loss_from max windowSize hws rounds
    (slidingHead max windowSize slidingInit).1 (slidingHead max windowSize slidingInit).2
    hno0 hinit
    (by
      intro s hs
      have hbase := (slidingHead_facts max windowSize slidingInit).2.1
      rw [hs] at hbase hinit
      simp only [Ctl.locals, slidingInit] at hbase
      obtain ⟨_, h2, h3, _⟩ := hinit
      rw [hbase]
      refine ⟨hans, ?_⟩
      rw [hlen, Int.toNat_of_nonneg (by omega)]
      omega)
  have hret : (clientSlidingWindow max windowSize (obsOfRounds rounds)).1.returned = true :=
    hrun.1
  have hno : Event.timeout ∉ (clientSlidingWindow max windowSize (obsOfRounds rounds)).2 :=
    hrun.2
  have hok := clientSlidingWindow_ok max windowSize hmax hws (obsOfRounds rounds) hno
  refine ⟨hret, ?_, ?_, hno, ?_⟩
  · cases hc : (clientSlidingWindow max windowSize (obsOfRounds rounds)).1 with
    | loop s => rw [hc] at hret; cases hret
    | done s =>
      rw [hc] at hok
      obtain ⟨_, _, _, _, _, _, _, hr, _, _⟩ := hok
      exact hr
  · cases hc : (clientSlidingWindow max windowSize (obsOfRounds rounds)).1 with
    | loop s => rw [hc] at hret; cases hret
    | done s =>
      rw [hc] at hok
      obtain ⟨hi, _, _, _, _, _, _, _, hs, _⟩ := hok
      rw [hs, hi]
  · intro obs hno1 hloop
    have hok1 := clientSlidingWindow_ok max windowSize hmax hws obs hno1
    cases hc : (clientSlidingWindow max windowSize obs).1 with
    | done s => rw [hc] at hloop; cases hloop
    | loop s =>
      rw [hc] at hok1
      obtain ⟨h1, h2, _, _, _, h5, _⟩ := hok1
      simp only [Ctl.locals]
      refine ⟨h1, ?_⟩
      rw [h5]
      congr 1
      omega

/-- C16 at `windowSize = 2`, `max = 4` with the acknowledgments `0, 1, 2`
arriving in time: the transmissions are `0, 1`, then `2` after the
acknowledgment of `0` and `3` after the acknowledgment of `1`, and the
function returns `0`. -/
theorem clientSlidingWindow_no_loss_witness :
    (clientSlidingWindow 4 2 (obsOfRounds
      [([], ⟨1, 0, 0⟩), ([⟨0, 0, 7⟩], ⟨1, 1, 0⟩), ([], ⟨1, 2, 0⟩)])).1.locals.retransmissions
      = 0 ∧
    (clientSlidingWindow 4 2 (obsOfRounds
      [([], ⟨1, 0, 0⟩), ([⟨0, 0, 7⟩], ⟨1, 1, 0⟩), ([], ⟨1, 2, 0⟩)])).2
      = [Event.send 0, Event.send 1, Event.start, Event.recv 0, Event.send 2, Event.start,
          Event.recv 1, Event.send 3, Event.start, Event.recv 2] :=
  ⟨(clientSlidingWindow_no_loss 4 2
      [([], ⟨1, 0, 0⟩), ([⟨0, 0, 7⟩], ⟨1, 1, 0⟩), ([], ⟨1, 2, 0⟩)]
      (by decide) (by decide) (by decide) (by decide)).2.1,
    by decide⟩

/-! ## clientStopWait: the number of transmissions -/

theorem stopWaitCountInv_head (max : Int) (i r : Int) (tr : List Event)
    (ps : List (StopWait × Obs)) (h0 : 0 ≤ i) (hle : 0 ≤ max → i ≤ max)
    (hlen : ((sends tr).length : Int) = i + r)
    (hcount : ∀ j : Int, ((sends tr).count j : Int)
      = (if 0 ≤ j ∧ j < i then 1 else 0) + (List.countP (stopWaitTimedOutAt j) ps : Nat)) :
    StopWaitCountInv max (stopWaitHead max ⟨i, r⟩).1 (tr ++ (stopWaitHead max ⟨i, r⟩).2) ps := by
  unfold stopWaitHead StopWaitCountInv
  by_cases hlt : i < max
  · simp only [hlt, if_true, Ctl.locals, Ctl.returned, sends_append, sends, List.length_append,
      List.length_singleton, List.count_append]
    refine ⟨h0, fun _ => trivial, (by intro h; cases h), fun _ => by omega, ?_, ?_⟩
    · push_cast
      omega
    · intro j
      push_cast
      rw [hcount j]
      by_cases hj : j = i
      · subst hj
        simp [h0]
        omega
      · have e1 : List.count j [i] = 0 := by
          simp [List.count_cons, Ne.symm hj]
        rw [e1]
        by_cases hji : 0 ≤ j ∧ j < i
        · have : 0 ≤ j ∧ j < i + 1 := ⟨hji.1, by omega⟩
          simp [hji, this]
        · have : ¬ (0 ≤ j ∧ j < i + 1) := by
            intro h; exact hji ⟨h.1, by omega⟩
          simp [hji, this]
  · simp only [hlt, if_false, Ctl.locals, Ctl.returned, List.append_nil]
    refine ⟨h0, (by intro h; cases h), fun _ => by omega, hle, ?_, ?_⟩
    · simp only [if_true]
      omega
    · intro j
      rw [hcount j]
      simp

theorem stopWaitCountInv_step (max : Int) (s : StopWait) (o : Obs) (tr : List Event)
    (ps : List (StopWait × Obs)) (h : StopWaitCountInv max (.loop s) tr ps) :
    StopWaitCountInv max (stopWaitPass max s o).1 (tr ++ (stopWaitPass max s o).2)
      (ps ++ [(s, o)]) := by
  obtain ⟨h0, hlt, _, hle, hlen, hcount⟩ := h
  have hlt := hlt rfl
  simp only [Ctl.locals, Ctl.returned, Bool.false_eq_true, if_false] at h0 hlt hle hlen hcount
  rw [stopWaitPass_eq]
  by_cases hm : o.poll > 0 ∧ o.seq = s.i
  · -- the acknowledgment of `i`
    simp only [hm, and_self, if_true]
    have hto : ∀ j, stopWaitTimedOutAt j (s, o) = false := by
      intro j; simp [stopWaitTimedOutAt, stopWaitTimedOut, hm]
    have e : tr ++ Event.recv s.i :: (stopWaitHead max ⟨s.i + 1, s.retransmissions⟩).2
        = (tr ++ [Event.recv s.i]) ++ (stopWaitHead max ⟨s.i + 1, s.retransmissions⟩).2 := by
      simp
    rw [e]
    refine stopWaitCountInv_head max (s.i + 1) s.retransmissions _ _ (by omega)
      (fun _ => by omega) ?_ ?_
    · simp only [sends_append, sends, List.append_nil]
      omega
    · intro j
      simp only [sends_append, sends, List.append_nil, List.countP_append, List.countP_cons,
        List.countP_nil, hto j]
      simpa using hcount j
  · by_cases ht : o.lap > TIMEOUT
    · -- timeout: `i` is sent again
      simp only [hm, ht, if_true, if_false]
      have hto : ∀ j, stopWaitTimedOutAt j (s, o) = decide (s.i = j) := by
        intro j; simp [stopWaitTimedOutAt, stopWaitTimedOut, hm, ht]
      have e : tr ++ (recvEvents o ++
            Event.timeout :: (stopWaitHead max ⟨s.i, s.retransmissions + 1⟩).2)
          = (tr ++ recvEvents o ++ [Event.timeout])
            ++ (stopWaitHead max ⟨s.i, s.retransmissions + 1⟩).2 := by
        simp
      rw [e]
      refine stopWaitCountInv_head max s.i (s.retransmissions + 1) _ _ h0 hle ?_ ?_
      · simp only [sends_append, sends_recvEvents, sends, List.append_nil]
        omega
      · intro j
        simp only [sends_append, sends_recvEvents, sends, List.append_nil, List.countP_append,
          List.countP_cons, List.countP_nil, hto j]
        rw [hcount j]
        by_cases hj : s.i = j
        · subst hj
          simp [h0]
          omega
        · have e1 : (0 ≤ j ∧ j < s.i + 1) ↔ (0 ≤ j ∧ j < s.i) := by
            constructor <;> intro h <;> exact ⟨h.1, by omega⟩
          simp [hj, e1]
    · -- nothing happens
      simp only [hm, ht, if_false]
      have hto : ∀ j, stopWaitTimedOutAt j (s, o) = false := by
        intro j; simp [stopWaitTimedOutAt, stopWaitTimedOut, hm, ht]
      unfold StopWaitCountInv
      simp only [Ctl.locals, Ctl.returned, Bool.false_eq_true, if_false, sends_append,
        sends_recvEvents, List.append_nil]
      refine ⟨h0, fun _ => hlt, (by intro h; cases h), hle, hlen, ?_⟩
      intro j
      simp only [List.countP_append, List.countP_cons, List.countP_nil, hto j]
      simpa using hcount j

theorem clientStopWaitPasses_nonneg (max : Int) (obs : List Obs) :
    ∀ p ∈ clientStopWaitPasses max obs, 0 ≤ p.1.i := by
  refine passesOf_forall (stopWaitPass max) (fun s => 0 ≤ s.i) ?_ obs _ ?_
  · intro s o s1 hs h
    rw [stopWaitPass_eq] at h
    by_cases hm : o.poll > 0 ∧ o.seq = s.i
    · simp only [hm, and_self, if_true] at h
      rw [(stopWaitHead_loop max _ s1 h).1]
      simp only
      omega
    · by_cases ht : o.lap > TIMEOUT
      · simp only [hm, ht, if_true, if_false] at h
        rw [(stopWaitHead_loop max _ s1 h).1]
        exact hs
      · simp only [hm, ht, if_false] at h
        rw [← Ctl.loop.inj h]; exact hs
  · intro s h
    rw [(stopWaitHead_loop max _ s h).1]

theorem clientStopWait_countInv (max : Int) (obs : List Obs) :
    StopWaitCountInv max (clientStopWait max obs).1 (clientStopWait max obs).2
      (clientStopWaitPasses max obs) := by
  have hinit : StopWaitCountInv max (stopWaitHead max ⟨0, 0⟩).1
      ([] ++ (stopWaitHead max ⟨0, 0⟩).2) [] :=
    stopWaitCountInv_head max 0 0 [] [] (le_refl _) (fun h => h) (by simp [sends])
      (by
        intro j
        have : ¬ (0 ≤ j ∧ j < 0) := by intro h; omega
        simp [sends, this])
  have h := runLoop_invariant (stopWaitPass max) (StopWaitCountInv max)
    (stopWaitCountInv_step max) obs (stopWaitHead max ⟨0, 0⟩).1
    ([] ++ (stopWaitHead max ⟨0, 0⟩).2) [] hinit
  simpa [clientStopWait, clientStopWaitPasses] using h

/-- C21. For every `max ≥ 0` and every terminating run of `clientStopWait`, the
number of datagrams transmitted equals `max` plus the value returned, and
each sequence number `j` of `0, ..., max - 1` is transmitted once plus once
for every timeout suffered while waiting for it, no other number being
transmitted.  For `max ≤ 0` the function returns `0` at once and transmits
nothing. -/
theorem clientStopWait_transmissions (max : Int) (obs : List Obs) :
    (0 ≤ max → (clientStopWait max obs).1.returned = true →
      ((sends (clientStopWait max obs).2).length : Int)
        = max + (clientStopWait max obs).1.locals.retransmissions ∧
      (∀ j : Int, 0 ≤ j → j < max → (sends (clientStopWait max obs).2).count j
        = 1 + List.countP (stopWaitTimedOutAt j) (clientStopWaitPasses max obs)) ∧
      (∀ j : Int, ¬ (0 ≤ j ∧ j < max) → j ∉ sends (clientStopWait max obs).2)) ∧
    (max ≤ 0 → clientStopWait max obs = (Ctl.done ⟨0, 0⟩, [])) := by
  constructor
  · intro hmax hterm
    obtain ⟨_, _, hd, hle, hlen, hcount⟩ := clientStopWait_countInv max obs
    have hi : (clientStopWait max obs).1.locals.i = max := le_antisymm (hle hmax) (hd hterm)
    simp only [hterm, if_true, hi, add_zero] at hlen hcount
    refine ⟨hlen, ?_, ?_⟩
    · intro j hj0 hj1
      have h := hcount j
      rw [if_pos ⟨hj0, hj1⟩] at h
      exact_mod_cast h
    · intro j hj hmem
      have h := hcount j
      rw [if_neg hj] at h
      have hpos : 0 < (sends (clientStopWait max obs).2).count j := List.count_pos_iff.mpr hmem
      have hz : List.countP (stopWaitTimedOutAt j) (clientStopWaitPasses max obs) = 0 := by
        rw [List.countP_eq_zero]
        intro p hp
        have hplt := clientStopWaitPasses_lt max obs p hp
        have hp0 := clientStopWaitPasses_nonneg max obs p hp
        simp only [stopWaitTimedOutAt, Bool.and_eq_true, decide_eq_true_eq, not_and]
        intro _ hpj
        exact hj ⟨by omega, by omega⟩
      rw [hz] at h
      simp at h
      omega
  · intro hmax
    have hlt : ¬ (0 : Int) < max := by omega
    simp [clientStopWait, stopWaitHead, hlt, runLoop]

/-- C21 on a terminating run with `max = 2` and one timeout for each sequence
number: four datagrams are transmitted, `2` plus the value returned; and with
`max = -1` nothing is transmitted. -/
theorem clientStopWait_transmissions_witness :
    ((sends (clientStopWait 2
        [⟨0, 0, 1501⟩, ⟨1, 0, 3⟩, ⟨0, 0, 2000⟩, ⟨1, 1, 5⟩]).2).length : Int)
      = 2 + (clientStopWait 2
        [⟨0, 0, 1501⟩, ⟨1, 0, 3⟩, ⟨0, 0, 2000⟩, ⟨1, 1, 5⟩]).1.locals.retransmissions ∧
    clientStopWait (-1) [⟨1, 0, 0⟩] = (Ctl.done ⟨0, 0⟩, []) :=
  ⟨((clientStopWait_transmissions 2
      [⟨0, 0, 1501⟩, ⟨1, 0, 3⟩, ⟨0, 0, 2000⟩, ⟨1, 1, 5⟩]).1 (by decide) (by decide)).1,
    (clientStopWait_transmissions (-1) [⟨1, 0, 0⟩]).2 (by decide)⟩

/-! ## A sliding-window session over a channel that loses a datagram -/

theorem slidingFor_sends_ge (max windowSize : Int) :
    ∀ (n : Nat) (s : Sliding),
      (∀ x ∈ sends (slidingFor max windowSize n s).2, s.i ≤ x) ∧
      s.i ≤ (slidingFor max windowSize n s).1.locals.i := by
  intro n
  induction n with
  | zero => intro s; simp [slidingFor, sends, Ctl.locals]
  | succ n ih =>
    intro s
    simp only [slidingFor]
    by_cases hlt : s.i < max
    · by_cases h1 : s.intransit < windowSize
      · by_cases h2 : s.intransit + 1 = windowSize
        · simp [hlt, h1, h2, Ctl.locals, sends]
        · obtain ⟨h3, h4⟩ := ih { s with intransit := s.intransit + 1, i := s.i + 1 }
          simp only [hlt, h1, h2, if_true, if_false, sends_append, sends, List.mem_append,
            List.mem_singleton]
          simp only at h3 h4
          refine ⟨?_, by omega⟩
          intro x hx
          rcases hx with hx | hx
          · omega
          · have := h3 x hx; omega
      · by_cases h2 : s.intransit = windowSize
        · simp [hlt, h1, h2, Ctl.locals, sends]
        · obtain ⟨h3, h4⟩ := ih { s with i := s.i + 1 }
          simp only [hlt, h1, h2, if_true, if_false, List.nil_append]
          simp only at h3 h4
          refine ⟨?_, by omega⟩
          intro x hx
          have := h3 x hx; omega
    · simp [hlt, Ctl.locals, sends]

theorem slidingPass_sends_pos (max windowSize : Int) (s : Sliding) (o : Obs)
    (hi : 0 ≤ s.i) (hb : 0 ≤ s.minUnacked) :
    (∀ x ∈ sends (slidingPass max windowSize s o).2, 1 ≤ x) ∧
    0 ≤ (slidingPass max windowSize s o).1.locals.i ∧
    0 ≤ (slidingPass max windowSize s o).1.locals.minUnacked := by
  have hmin := slidingPass_minUnacked max windowSize s o
  have hb1 : 0 ≤ (slidingPass max windowSize s o).1.locals.minUnacked := by
    rw [hmin]; split <;> omega
  refine ⟨?_, ?_, hb1⟩
  · rw [slidingPass_eq]
    by_cases hm : o.poll > 0 ∧ o.seq = s.minUnacked
    · simp only [hm, and_self, if_true, sends]
      intro x hx
      have := (slidingFor_sends_ge max windowSize _ _).1 x hx
      simp only at this
      omega
    · by_cases ht : o.lap > TIMEOUT
      · simp only [hm, ht, if_true, if_false, sends_append, sends_recvEvents, sends,
          List.nil_append]
        intro x hx
        have := (slidingFor_sends_ge max windowSize _ _).1 x hx
        simp only at this
        omega
      · simp [hm, ht, sends_recvEvents]
  · rw [slidingPass_eq]
    by_cases hm : o.poll > 0 ∧ o.seq = s.minUnacked
    · simp only [hm, and_self, if_true]
      have := (slidingFor_sends_ge max windowSize (max - (s.i + 1)).toNat
        ⟨s.i + 1, s.retransmissions, s.minUnacked + 1, s.intransit - 1⟩).2
      simp only at this
      unfold slidingHead
      simp only
      omega
    · by_cases ht : o.lap > TIMEOUT
      · simp only [hm, ht, if_true, if_false]
        have := (slidingFor_sends_ge max windowSize (max - (s.minUnacked + 1)).toNat
          ⟨s.minUnacked + 1, s.retransmissions + windowSize, s.minUnacked, 0⟩).2
        simp only at this
        unfold slidingHead
        simp only
        omega
      · simp only [hm, ht, if_false, Ctl.locals]
        exact hi

theorem slidingHead_init_sends (max windowSize : Int) (hmax : 1 ≤ max) (hws : 1 ≤ windowSize) :
    ∃ rest, sends (slidingHead max windowSize slidingInit).2 = 0 :: rest ∧
      (∀ x ∈ rest, 1 ≤ x) ∧
      0 ≤ (slidingHead max windowSize slidingInit).1.locals.i ∧
      0 ≤ (slidingHead max windowSize slidingInit).1.locals.minUnacked := by
  have hb := (slidingHead_facts max windowSize slidingInit).2.1
  have hi := (slidingFor_sends_ge max windowSize (max - slidingInit.i).toNat slidingInit).2
  have hb0 : 0 ≤ (slidingHead max windowSize slidingInit).1.locals.minUnacked := by
    rw [hb]; exact le_refl _
  have hi0 : 0 ≤ (slidingHead max windowSize slidingInit).1.locals.i := hi
  have hlt : slidingInit.i < max := by simp only [slidingInit]; omega
  have h1 : slidingInit.intransit < windowSize := by simp only [slidingInit]; omega
  rw [slidingHead_eq] at hb0 hi0 ⊢
  simp only [hlt, h1, if_true] at hb0 hi0 ⊢
  by_cases h2 : slidingInit.intransit + 1 = windowSize
  · simp only [h2, if_true] at hb0 hi0 ⊢
    exact ⟨[], by simp [sends, sends_append, slidingInit], by simp, hi0, hb0⟩
  · simp only [h2, if_false] at hb0 hi0 ⊢
    refine ⟨sends (slidingHead max windowSize
      { slidingInit with intransit := slidingInit.intransit + 1, i := slidingInit.i + 1 }).2,
      by simp [sends, sends_append, slidingInit], ?_, hi0, hb0⟩
    intro x hx
    have := (slidingFor_sends_ge max windowSize _ _).1 x hx
    simp only [slidingInit] at this
    omega

theorem sessionStuck_step (max windowSize : Int) (S : Session) (a : Action)
    (h : SessionStuck S) : SessionStuck (sessionStep max windowSize S a) := by
  obtain ⟨hs, hacc, hack, hq, hc, hi, hb⟩ := h
  cases a with
  | senderPass lap =>
    simp only [sessionStep]
    cases hcl : S.client with
    | done s => exact ⟨hs, hacc, hack, hq, hc, hi, hb⟩
    | loop s =>
      rw [hcl] at hi hb
      simp only [Ctl.locals] at hi hb
      obtain ⟨h1, h2, h3⟩ := slidingPass_sends_pos max windowSize s
        (senderObs S.toClient lap) hi hb
      have h0 : (0 : Int) ∉ sends (slidingPass max windowSize s (senderObs S.toClient lap)).2 := by
        intro hm
        have := h1 0 hm
        omega
      refine ⟨hs, hacc, hack, ?_, ?_, h2, h3⟩
      · simp only [List.mem_append, not_or]
        exact ⟨hq, h0⟩
      · simp only [sends_append, List.count_append, hc, List.count_eq_zero.mpr h0]
  | receiverPass =>
    simp only [sessionStep, hs]
    have hne : ({ i := 0, recent := -1 } : EarlyRetrans).recent
        ≠ ({ i := 0, recent := -1 } : EarlyRetrans).i := by decide
    rw [earlyRetransPass_eq max _ _ hne]
    cases hq1 : S.toServer with
    | nil =>
      have hp : ¬ (receiverObs ([] : List Int)).poll > 0 := by decide
      simp only [hp, if_false, List.append_nil, List.tail_nil, acks]
      rw [hq1] at hq
      exact ⟨rfl, hacc, hack, hq, hc, hi, hb⟩
    | cons d ds =>
      rw [hq1] at hq
      have hd : d ≠ 0 := by
        intro h0; exact hq (by simp [h0])
      have hds : (0 : Int) ∉ ds := fun hm => hq (List.mem_cons_of_mem _ hm)
      have hp : (receiverObs (d :: ds)).poll > 0 := by simp [receiverObs]
      have hsq : ¬ (receiverObs (d :: ds)).seq = 0 := hd
      simp only [hp, hsq, if_true, if_false, List.tail_cons, acks, List.append_nil]
      refine ⟨rfl, ?_, ?_, hds, hc, hi, hb⟩
      · show accepts (S.serverTrace ++ [Event.recv (receiverObs (d :: ds)).seq,
          Event.ack (-1)]) = []
        rw [accepts_append, hacc]
        rfl
      · intro a ha
        have ha1 : a ∈ acks (S.serverTrace ++ [Event.recv (receiverObs (d :: ds)).seq,
            Event.ack (-1)]) := ha
        rw [acks_append] at ha1
        rcases List.mem_append.mp ha1 with ha2 | ha2
        · exact hack a ha2
        · simpa [acks] using ha2
  | loseDatagram =>
    simp only [sessionStep]
    exact ⟨hs, hacc, hack, fun hm => hq (List.mem_of_mem_tail hm), hc, hi, hb⟩
  | loseAck =>
    simp only [sessionStep]
    exact ⟨hs, hacc, hack, hq, hc, hi, hb⟩

theorem sessionStuck_foldl (max windowSize : Int) :
    ∀ (actions : List Action) (S : Session), SessionStuck S →
      SessionStuck (actions.foldl (sessionStep max windowSize) S) := by
  intro actions
  induction actions with
  | nil => intro S h; exact h
  | cons a as ih =>
    intro S h
    exact ih _ (sessionStuck_step max windowSize S a h)

theorem sessionStuck_after_loss (max windowSize : Int) (hmax : 1 ≤ max)
    (hws : 1 ≤ windowSize) :
    SessionStuck (sessionStep max windowSize (sessionInit max windowSize)
      Action.loseDatagram) := by
  obtain ⟨rest, h1, h2, h3, h4⟩ := slidingHead_init_sends max windowSize hmax hws
  have hsrv : (earlyRetransHead max { i := 0, recent := -1 })
      = (Ctl.loop { i := 0, recent := -1 }, []) := by
    have : (0 : Int) < max := by omega
    simp [earlyRetransHead, this]
  simp only [sessionStep, sessionInit, SessionStuck, hsrv, h1, List.tail_cons, accepts, acks]
  refine ⟨trivial, trivial, by simp, ?_, ?_, h3, h4⟩
  · intro hm
    have := h2 0 hm
    omega
  · have h0 : (0 : Int) ∉ rest := by
      intro hm
      have := h2 0 hm
      omega
    simp [List.count_cons, List.count_eq_zero.mpr h0]

/-- C17 fails for the sliding-window session.  Take any `max ≥ 1` and
`windowSize ≥ 1` and let the channel lose the first datagram in flight, which
is the only copy of the sequence number `0` that `clientSlidingWindow` ever
transmits: after a timeout the function restarts at `minUnacked + 1`, not at
`minUnacked`.  Then whatever happens afterwards (any passes of the two
functions with any timer readings, any further losses or none),
`serverEarlyRetrans` still waits for `0`, has accepted nothing and answers
every datagram with `-1`, no datagram `0` is in flight and `0` has been
transmitted exactly once: no message is ever delivered, however many times
the sender retransmits. -/
theorem slidingSession_never_delivers (max windowSize : Int) (actions : List Action)
    (hmax : 1 ≤ max) (hws : 1 ≤ windowSize) :
    (runSession max windowSize (Action.loseDatagram :: actions)).server
      = Ctl.loop { i := 0, recent := -1 } ∧
    (runSession max windowSize (Action.loseDatagram :: actions)).server.returned = false ∧
    accepts (runSession max windowSize (Action.loseDatagram :: actions)).serverTrace = [] ∧
    (∀ a ∈ acks (runSession max windowSize (Action.loseDatagram :: actions)).serverTrace,
      a = -1) ∧
    (sends (runSession max windowSize (Action.loseDatagram :: actions)).clientTrace).count 0
      = 1 ∧
    (0 : Int) ∉ (runSession max windowSize (Action.loseDatagram :: actions)).toServer := by
  have h := sessionStuck_foldl max windowSize actions _
    (sessionStuck_after_loss max windowSize hmax hws)
  obtain ⟨hs, hacc, hack, hq, hc, _, _⟩ := h
  have hs1 : (runSession max windowSize (Action.loseDatagram :: actions)).server
      = Ctl.loop { i := 0, recent := -1 } := hs
  refine ⟨hs1, ?_, hacc, hack, hc, hq⟩
  rw [hs1]
  rfl

/-- C17 at `max = 4`, `windowSize = 2` on a schedule that loses one message,
the first datagram `0`, and lets the timer of the sender run out only when
nothing is in flight: after two timeouts the sender has transmitted
`0, 1, 1, 2, 1, 2` and the receiver has accepted nothing.  Without the loss
the same session delivers all four messages. -/
theorem slidingSession_never_delivers_witness :
    lossCount [Action.loseDatagram, Action.receiverPass, Action.senderPass 10,
      Action.senderPass 1501, Action.receiverPass, Action.receiverPass, Action.senderPass 20,
      Action.senderPass 30, Action.senderPass 1501, Action.receiverPass,
      Action.receiverPass] = 1 ∧
    wellTimed 4 2 (sessionInit 4 2) [Action.loseDatagram, Action.receiverPass,
      Action.senderPass 10, Action.senderPass 1501, Action.receiverPass, Action.receiverPass,
      Action.senderPass 20, Action.senderPass 30, Action.senderPass 1501,
      Action.receiverPass, Action.receiverPass] = true ∧
    sends (runSession 4 2 [Action.loseDatagram, Action.receiverPass, Action.senderPass 10,
      Action.senderPass 1501, Action.receiverPass, Action.receiverPass, Action.senderPass 20,
      Action.senderPass 30, Action.senderPass 1501, Action.receiverPass,
      Action.receiverPass]).clientTrace = [0, 1, 1, 2, 1, 2] ∧
    accepts (runSession 4 2 (Action.loseDatagram :: [Action.receiverPass,
      Action.senderPass 10, Action.senderPass 1501, Action.receiverPass, Action.receiverPass,
      Action.senderPass 20, Action.senderPass 30, Action.senderPass 1501,
      Action.receiverPass, Action.receiverPass])).serverTrace = [] ∧
    (runSession 4 2 [Action.receiverPass, Action.senderPass 10, Action.receiverPass,
      Action.senderPass 10, Action.receiverPass, Action.senderPass 10,
      Action.receiverPass]).server = Ctl.done { i := 4, recent := 3 } :=
  ⟨by decide, by decide, by decide,
    (slidingSession_never_delivers 4 2 [Action.receiverPass, Action.senderPass 10,
      Action.senderPass 1501, Action.receiverPass, Action.receiverPass, Action.senderPass 20,
      Action.senderPass 30, Action.senderPass 1501, Action.receiverPass,
      Action.receiverPass] (by decide) (by decide)).2.2.1,
    by decide⟩

/-- C18 at the failing input `max = 1`, `windowSize = 1` with the timer reading
`1501` and no datagram to read: `clientSlidingWindow` takes the timeout
branch, counts one retransmission and returns, and the sequence number `0`
has been transmitted once only, so nothing is retransmitted.  On the same
input `clientStopWait` transmits `0` again. -/
theorem slidingTimeout_retransmits_nothing :
    clientSlidingWindow 1 1 [⟨0, 0, 1501⟩]
      = (Ctl.done ⟨1, 1, 0, 0⟩, [Event.send 0, Event.start, Event.timeout]) ∧
    sends (clientSlidingWindow 1 1 [⟨0, 0, 1501⟩]).2 = [0] ∧
    clientStopWait 1 [⟨0, 0, 1501⟩]
      = (Ctl.loop ⟨0, 1⟩,
          [Event.send 0, Event.start, Event.timeout, Event.send 0, Event.start]) := by
  decide

end Udphw3
